import Mathlib

/-!
# QuizWizard: scoring, comparison and shuffle engine

A shallow embedding of the API server of the QuizWizard repository
(`api/models/models.go`, `api/utils/utils.go`, `api/handlers/handlers.go`)
together with theorems about it.

Modelling conventions

* Go `float64` scores are embedded as exact rationals `ℚ`; the arithmetic the
  code performs on them (`float64(a) / float64(b) * 100`, `<`, `>`) is read over
  `ℚ`. Where the special values of `float64` matter (the range guard of the
  ledger), a second reading over `GoFloat` adds the infinities and NaN.
* Go `int` is embedded as `Int` (answer indices) or `Nat` (lengths, counters);
  none of the operations used can overflow.
* Go `string` is embedded as `String`; a Go `error` is `Option String` holding
  the message, `none` being the `nil` error.
* A Go `map[string]T` is an association list: lookup returns the first binding
  of a key, assignment to an existing key rewrites its bindings in place, and a
  `range` loop visits the entries in the order of the list, so that every
  iteration order of a map is some list.
* An index out of range is a runtime failure; functions that index return an
  `Option`, `none` being the failure.
* The global variable `globals.CategoryScores` is passed explicitly; functions
  that mutate it return the new ledger.
* `rand.Intn` is an explicit oracle: the draw made in iteration `i` of the
  shuffle loop is `rnd i`, reduced into the range `[0, i]`.
-/

namespace QuizWizard

/-! ## Strings: the two library calls used for category normalisation -/

/-- Lower-casing of one rune, as done by `strings.ToLower`. The letters `A`-`Z`
are mapped to `a`-`z`; runes outside ASCII are left as they are (the Unicode
case tables are not embedded). -/
def toLowerRune (c : Char) : Char := c.toLower

/-- Go `strings.ToLower`: lower-cases every rune of the string. -/
def ToLower (s : String) : String := ⟨s.data.map toLowerRune⟩

/-- Go `strings.TrimLeft`: drops the leading runes that occur in `cutset`. -/
def TrimLeft (s : String) (cutset : String) : String :=
  ⟨s.data.dropWhile (fun c => decide (c ∈ cutset.data))⟩

/-- Go `strings.TrimRight`: drops the trailing runes that occur in `cutset`. -/
def TrimRight (s : String) (cutset : String) : String :=
  ⟨(s.data.reverse.dropWhile (fun c => decide (c ∈ cutset.data))).reverse⟩

/-- Go `strings.Trim`: drops leading and trailing runes that occur in `cutset`. -/
def Trim (s : String) (cutset : String) : String :=
  TrimRight (TrimLeft s cutset) cutset

/-- The normalisation every entry point applies to a category:
`strings.ToLower(strings.Trim(category, " "))`. -/
def normalise (category : String) : String := ToLower (Trim category " ")

/-! ## The score ledger `globals.CategoryScores : map[string][]float64` -/

/-- The ledger: category key to history of percentage scores. -/
abbrev Ledger := List (String × List ℚ)

/-- Map lookup `scores, exists := m[k]`; `none` when the key is absent. -/
def Ledger.get : Ledger → String → Option (List ℚ)
  | [], _ => none
  | (k, v) :: rest, key => if k = key then some v else Ledger.get rest key

/-- Map assignment `m[k] = v` for a key that is already bound. -/
def Ledger.put (m : Ledger) (key : String) (v : List ℚ) : Ledger :=
  m.map (fun kv => if kv.1 = key then (kv.1, v) else kv)

/-- The keys of the map. -/
def Ledger.keys (m : Ledger) : List String := m.map Prod.fst

/-- The value read by `m[k]`: the nil slice when the key is absent. -/
def Ledger.getD (m : Ledger) (key : String) : List ℚ := (m.get key).getD []

/-! ## `utils.CalculateComparison` and `utils.AppendCategoryScore` -/

/-- The counting loop of `CalculateComparison`:
`for _, score := range scores { if newScore > score { betterThanCount++ } }`. -/
def betterThanCount (newScore : ℚ) (scores : List ℚ) : Nat :=
  scores.foldl (fun count score => if newScore > score then count + 1 else count) 0

/-- `utils.CalculateComparison`, returning the pair `(float64, error)`. -/
def CalculateComparison (ledger : Ledger) (category : String) (newScore : ℚ) :
    ℚ × Option String :=
  let category := ToLower (Trim category " ")
  if category.length = 0 then
    (0, some "a category must be provided")
  else
    match ledger.get category with
    | none => (0, some ("category '" ++ category ++ "' does not exist"))
    | some scores =>
      if newScore < 0 ∨ newScore > 100 then
        (0, some "score must be a value between 0 and 100")
      else if scores.length = 0 then
        (0, none)
      else
        (((betterThanCount newScore scores : ℚ) / (scores.length : ℚ)) * 100, none)

/-- `utils.AppendCategoryScore`, returning the error and the ledger after the call. -/
def AppendCategoryScore (ledger : Ledger) (category : String) (newScore : ℚ) :
    Option String × Ledger :=
  let category := ToLower (Trim category " ")
  if category.length = 0 then
    (some "a category must be provided", ledger)
  else
    match ledger.get category with
    | none => (some ("category '" ++ category ++ "' does not exist"), ledger)
    | some scores =>
      if newScore < 0 ∨ newScore > 100 then
        (some "score must be a value between 0 and 100", ledger)
      else
        (none, ledger.put category (scores ++ [newScore]))

/-! ## `models`: questions, responses and the shuffle -/

set_option linter.dupNamespace false

/-- Go `models.Question`. -/
structure Question where
  ID : Int
  Category : String
  Question : String
  Answers : List String
  CorrectAnswerIndex : Int
  deriving DecidableEq, Repr

/-- Go `models.Questions`, a slice of questions. -/
abbrev Questions := List Question

/-- Go `models.QuestionResponse`; the pointer field is `none` when nil. -/
structure QuestionResponse where
  Question : Option Question
  Answer : Int
  deriving DecidableEq, Repr

/-- Go `models.QuizResponse`. -/
structure QuizResponse where
  Category : String
  QuestionResponses : List QuestionResponse
  deriving DecidableEq, Repr

/-- The swap `cpy[i], cpy[j] = cpy[j], cpy[i]`; `none` is the index-out-of-range
panic of the Go runtime. -/
def swapAt (cpy : Questions) (i j : Nat) : Option Questions :=
  match cpy[i]?, cpy[j]? with
  | some a, some b => some ((cpy.set i b).set j a)
  | _, _ => none

/-- The loop of `ShuffledCopy`, run over a list of indices:
`j := rand.Intn(i + 1); cpy[i], cpy[j] = cpy[j], cpy[i]`. The draw of iteration
`i` is `rnd i`, reduced into `[0, i]` as `rand.Intn(i + 1)` guarantees. -/
def shuffleLoop (rnd : Nat → Nat) : List Nat → Questions → Option Questions
  | [], cpy => some cpy
  | i :: rest, cpy =>
    match swapAt cpy i (rnd i % (i + 1)) with
    | none => none
    | some cpy => shuffleLoop rnd rest cpy

/-- `Questions.ShuffledCopy`: the receiver is copied and the loop runs over
`for i := range cpy`. -/
def ShuffledCopy (q : Questions) (rnd : Nat → Nat) : Option Questions :=
  shuffleLoop rnd (List.range q.length) q

/-! ## `utils.CalculateScore` -/

/-- The grading loop of `CalculateScore`; `none` is the early return taken at a
response whose question is nil. -/
def scoreLoop : List QuestionResponse → Nat → Option Nat
  | [], score => some score
  | response :: rest, score =>
    match response.Question with
    | none => none
    | some question =>
      if question.CorrectAnswerIndex = response.Answer then scoreLoop rest (score + 1)
      else scoreLoop rest score

/-- `utils.CalculateScore`, returning the triple `(string, float64, error)`. -/
def CalculateScore (responses : List QuestionResponse) : String × ℚ × Option String :=
  if responses.length = 0 then
    ("", 0, some "no answers were submitted")
  else
    match scoreLoop responses 0 with
    | none => ("", 0, some "one or more answers were invalid")
    | some score =>
      let totalQuestions := responses.length
      (toString score ++ "/" ++ toString totalQuestions,
        ((score : ℚ) / (totalQuestions : ℚ)) * 100, none)

/-! ## `handlers.SubmitAnswers` -/

/-- The `data` field of a response. -/
inductive Payload where
  | empty
  | categories (names : List String)
  | questions (qs : Questions)
  | result (scoreString : String) (scorePercentage : ℚ) (comparison : String)
  deriving DecidableEq, Repr

/-- What `prepareResponse` sends: the HTTP status and the JSON envelope. -/
structure Response where
  Success : Bool
  Message : String
  StatusCode : Nat
  Data : Payload
  deriving DecidableEq, Repr

/-- `handlers.prepareResponse`. -/
def prepareResponse (success : Bool) (msg : String) (statusCode : Nat) (data : Payload) :
    Response :=
  { Success := success, Message := msg, StatusCode := statusCode, Data := data }

/-- Rounding of a rational to the nearest integer, ties to even. -/
def roundHalfEven (x : ℚ) : Int :=
  let f := Rat.floor x
  let d := x - f
  if d < 1 / 2 then f else if 1 / 2 < d then f + 1 else if f % 2 = 0 then f else f + 1

/-- The verb `%.0f` of `fmt.Sprintf`, read over exact rationals: the value
rounded to an integer, ties to even, with the sign kept when a negative value
rounds to zero. -/
def formatFloat0 (x : ℚ) : String :=
  if x < 0 ∧ roundHalfEven x = 0 then "-0" else toString (roundHalfEven x)

/-- The message reported for a category without earlier scores. -/
def firstQuizzerMessage (category : String) : String :=
  "You are the first quizzer for the " ++ category ++ " category."

/-- The message reported with a numeric comparison. -/
def betterThanMessage (category : String) (comparisonScore : ℚ) : String :=
  "Your score for the " ++ category ++ " category was better than " ++
    formatFloat0 comparisonScore ++ "% of all quizzers."

/-- `handlers.SubmitAnswers`. The request body is `none` when `c.Bind` fails.
Returns the response and the ledger after the call. -/
def SubmitAnswers (ledger : Ledger) (body : Option QuizResponse) : Response × Ledger :=
  if ledger.length = 0 then
    (prepareResponse false "An unexpected error occurred. Please try again later." 500 .empty,
      ledger)
  else
    match body with
    | none => (prepareResponse false "Invalid request format." 400 .empty, ledger)
    | some quizSubmission =>
      if quizSubmission.QuestionResponses.length = 0 then
        (prepareResponse false "No answers were submitted." 400 .empty, ledger)
      else
        let category := ToLower (Trim quizSubmission.Category " ")
        if category.length = 0 then
          (prepareResponse false "A category must be provided." 400 .empty, ledger)
        else if (ledger.get category).isNone then
          (prepareResponse false (category ++ " is not a valid category.") 404 .empty, ledger)
        else
          match CalculateScore quizSubmission.QuestionResponses with
          | (_, _, some err) =>
            (prepareResponse false ("Failed to process submission: " ++ err) 400 .empty, ledger)
          | (scoreString, scorePercentage, none) =>
            match CalculateComparison ledger category scorePercentage with
            | (_, some err) =>
              (prepareResponse false ("Failed to process submission: " ++ err) 400 .empty,
                ledger)
            | (comparisonScore, none) =>
              match AppendCategoryScore ledger category scorePercentage with
              | (some err, ledger) =>
                (prepareResponse false ("Failed to process submission: " ++ err) 400 .empty,
                  ledger)
              | (none, ledger) =>
                let comparisonString :=
                  if (ledger.getD category).length ≤ 1 then firstQuizzerMessage category
                  else betterThanMessage category comparisonScore
                (prepareResponse true "Submission processed successfully." 200
                    (.result scoreString scorePercentage comparisonString), ledger)

/-- The ledger of `TestCalculateComparison`. -/
def testLedger : Ledger :=
  [("science", [50, 60, 70, 80, 90]), ("math", [20, 30, 40, 50, 60]), ("music", [])]

/-- The grading rule in the words of the specification: a response is correct
iff its question is present and the submitted index equals the question's
correct-answer index. -/
def isCorrect (r : QuestionResponse) : Bool :=
  match r.Question with
  | none => false
  | some q => decide (q.CorrectAnswerIndex = r.Answer)

/-- The number of correct responses, by the grading rule of the specification. -/
def correctCount (responses : List QuestionResponse) : Nat := responses.countP isCorrect

/-- The first question of `TestCalculateScore`. -/
def waterQuestion : Question :=
  { ID := 1, Category := "science", Question := "What is the chemical symbol for water?",
    Answers := ["H2O", "O2", "H2O2", "HO"], CorrectAnswerIndex := 0 }

/-- The questions of `TestCalculateScore`. -/
def testQuestions : List Question :=
  [ waterQuestion,
    { ID := 2, Category := "math", Question := "What is 2 + 2?",
      Answers := ["3", "4", "5", "6"], CorrectAnswerIndex := 1 },
    { ID := 3, Category := "history",
      Question := "Who was the first president of the United States?",
      Answers := ["George Washington", "Thomas Jefferson", "Abraham Lincoln", "John Adams"],
      CorrectAnswerIndex := 0 },
    { ID := 4, Category := "geography", Question := "What is the capital of France?",
      Answers := ["Berlin", "Madrid", "Paris", "Lisbon"], CorrectAnswerIndex := 2 } ]

/-- The responses of the test case `positive_answer_out_of_bounds`, the first
response left out. -/
def testResponsesTail : List QuestionResponse :=
  [ { Question := testQuestions[1]?, Answer := 1 },
    { Question := testQuestions[2]?, Answer := 0 },
    { Question := testQuestions[3]?, Answer := 2 } ]

/-- The responses of the test case `positive_answer_out_of_bounds`. -/
def testResponsesOutOfBounds : List QuestionResponse :=
  { Question := testQuestions[0]?, Answer := 5 } :: testResponsesTail

/-- A question whose own correct-answer index lies outside its four answers. -/
def illFormedQuestion : Question :=
  { ID := 9, Category := "science", Question := "?", Answers := ["a", "b", "c", "d"],
    CorrectAnswerIndex := -1 }

/-- The second question of `TestSubmitAnswers`. -/
def marsQuestion : Question :=
  { ID := 2, Category := "science", Question := "What planet is known as the Red Planet?",
    Answers := ["Earth", "Mars", "Jupiter", "Venus"], CorrectAnswerIndex := 1 }

/-- The request body of `TestSubmitAnswers`: both science questions answered
correctly. -/
def testSubmission : QuizResponse :=
  { Category := "science",
    QuestionResponses :=
      [ { Question := some waterQuestion, Answer := 0 },
        { Question := some marsQuestion, Answer := 1 } ] }

/-- The ledger of the test case `successfully_processed_submission_with_comparison`. -/
def scienceLedger : Ledger := [("science", [20, 30])]

/-- The ledger of the test case `successfully_processed_submission_without_comparison`. -/
def emptyScienceLedger : Ledger := [("science", [])]

/-- A ledger whose only category holds exactly one earlier score. -/
def oneScoreLedger : Ledger := [("science", [50])]

/-- The sequences of choices `(j_0, ..., j_{n-1})` with `0 ≤ j_i ≤ i` that the
loop of `ShuffledCopy` can draw on an input of length `n`. -/
abbrev Choices (n : Nat) := (i : Fin n) → Fin (i.val + 1)

/-- The oracle that answers the draw of iteration `i` with the choice `j_i`. -/
def Choices.rnd {n : Nat} (c : Choices n) : Nat → Nat :=
  fun i => if h : i < n then (c ⟨i, h⟩).val else 0

/-! ## The catalog `globals.Questions : map[string]models.Questions` -/

/-- The catalog: category key to questions. The order of the list is the order
in which a `range` loop visits the entries of the map. -/
abbrev Catalog := List (String × Questions)

/-- Map lookup `qs, ok := m[k]`; `none` when the key is absent. -/
def Catalog.get : Catalog → String → Option Questions
  | [], _ => none
  | (k, v) :: rest, key => if k = key then some v else Catalog.get rest key

/-- The value read by `m[k]`: the nil slice when the key is absent. -/
def Catalog.getD (m : Catalog) (key : String) : Questions := (m.get key).getD []

/-- The keys of the map. -/
def Catalog.keys (m : Catalog) : List String := m.map Prod.fst

/-- `utils.RandomiseQuestions`: the questions of all categories are appended in
the order the map is visited, shuffled, and cut to the first five. -/
def RandomiseQuestions (questions : Catalog) (rnd : Nat → Nat) : Option Questions :=
  let allQuestions : Questions :=
    questions.foldl (fun allQuestions kv => allQuestions ++ kv.2) []
  match ShuffledCopy allQuestions rnd with
  | none => none
  | some shuffledQuestions =>
    if shuffledQuestions.length > 5 then some (shuffledQuestions.take 5)
    else some shuffledQuestions

/-- `handlers.GetQuestions` on the query parameter `category`; `none` is a
runtime failure inside the shuffle. -/
def GetQuestions (questions : Catalog) (category : String) (rnd : Nat → Nat) :
    Option Response :=
  let category := ToLower (Trim category " ")
  if questions.length = 0 then
    some (prepareResponse false "An unexpected error occurred. Please try again later." 500
      .empty)
  else
    let category := if category.length = 0 then "random" else category
    if (questions.get category).isNone ∧ category ≠ "random" then
      some (prepareResponse false (category ++ " is not a valid category.") 404 .empty)
    else
      match (if category = "random" then RandomiseQuestions questions rnd
        else ShuffledCopy (questions.getD category) rnd) with
      | none => none
      | some responseQuestions =>
        if responseQuestions.length = 0 then
          some (prepareResponse false
            ("Currently there are no questions available for the " ++ category ++
              " category. Please choose a different category or try again later.") 404 .empty)
        else
          some (prepareResponse true
            ("Questions successfully retrieved from the " ++ category ++ " category.") 200
            (.questions responseQuestions))

/-- The normalisation in the words of the specification: all leading and
trailing whitespace characters (spaces, tabs, newlines) are removed and the
string is lower-cased. -/
def trimWhitespaceLower (category : String) : String := ToLower (Trim category " \t\n")

/-- The pooled questions of all categories of a catalog. -/
def pooled (catalog : Catalog) : Questions := catalog.flatMap Prod.snd

/-- The category the handler works with: the normalised request, the empty
string standing for `"random"`. -/
def effectiveCategory (category : String) : String :=
  if normalise category = "" then "random" else normalise category

/-- The answer of `GetQuestions` to an unknown category. -/
def unknownCategoryResponse (category : String) : Response :=
  prepareResponse false (category ++ " is not a valid category.") 404 .empty

/-- The answer of `GetQuestions` when the selection is empty. -/
def noQuestionsResponse (category : String) : Response :=
  prepareResponse false
    ("Currently there are no questions available for the " ++ category ++
      " category. Please choose a different category or try again later.") 404 .empty

/-- The answer of `GetQuestions` that carries the selected questions. -/
def questionsResponse (category : String) (qs : Questions) : Response :=
  prepareResponse true ("Questions successfully retrieved from the " ++ category ++ " category.")
    200 (.questions qs)

/-- The third question of `TestRandomiseQuestions`. -/
def sumQuestion : Question :=
  { ID := 3, Category := "math", Question := "What is 2 + 2?",
    Answers := ["3", "4", "5", "6"], CorrectAnswerIndex := 1 }

/-- The fourth question of `TestRandomiseQuestions`. -/
def rootQuestion : Question :=
  { ID := 4, Category := "math", Question := "What is the square root of 16?",
    Answers := ["3", "4", "5", "6"], CorrectAnswerIndex := 1 }

/-- The fifth question of `TestRandomiseQuestions`. -/
def presidentQuestion : Question :=
  { ID := 5, Category := "history",
    Question := "Who was the first president of the United States?",
    Answers := ["George Washington", "Thomas Jefferson", "Abraham Lincoln", "John Adams"],
    CorrectAnswerIndex := 0 }

/-- The sixth question of `TestRandomiseQuestions`. -/
def titanicQuestion : Question :=
  { ID := 6, Category := "history", Question := "In which year did the Titanic sink?",
    Answers := ["1912", "1913", "1914", "1915"], CorrectAnswerIndex := 0 }

/-- The seventh question of `TestRandomiseQuestions`. -/
def franceQuestion : Question :=
  { ID := 7, Category := "geography", Question := "What is the capital of France?",
    Answers := ["Berlin", "Madrid", "Paris", "Lisbon"], CorrectAnswerIndex := 2 }

/-- The catalog of `TestRandomiseQuestions`: seven questions in four categories. -/
def randomiseCatalog : Catalog :=
  [ ("science", [waterQuestion, marsQuestion]),
    ("math", [sumQuestion, rootQuestion]),
    ("history", [presidentQuestion, titanicQuestion]),
    ("geography", [franceQuestion]) ]

/-- A catalog whose single category holds seven questions. -/
def bigCatalog : Catalog :=
  [ ("science", [waterQuestion, marsQuestion, sumQuestion, rootQuestion, presidentQuestion,
      titanicQuestion, franceQuestion]) ]

/-- A catalog that binds the empty key next to the category `math`. -/
def emptyKeyCatalog : Catalog := [("", [waterQuestion]), ("math", [sumQuestion])]

/-- The catalog of the test case `failure_due_to_invalid_category`. -/
def scienceCatalog : Catalog := [("science", [waterQuestion])]

/-- The catalog of the test case `failure_due_to_no_questions_for_specified_category`. -/
def historyCatalog : Catalog := [("history", [])]

/-! ## `handlers.GetCategories` -/

/-- Upper-casing of one rune, as done by `unicode.ToUpper`. The letters `a`-`z`
are mapped to `A`-`Z`; runes outside ASCII are left as they are (the Unicode
case tables are not embedded). -/
def toUpperRune (c : Char) : Char := c.toUpper

/-- The body of the loop of `GetCategories` for one key:
`runes := []rune(key); runes[0] = unicode.ToUpper(runes[0]); string(runes)`.
The result is `none` when `runes[0]` is out of range, that is for the empty key. -/
def capitalise (key : String) : Option String :=
  match key.data with
  | [] => none
  | r :: rest => some ⟨toUpperRune r :: rest⟩

/-- The loop `for key := range questions` of `GetCategories` over the keys in
the order visited; it fails as soon as one key fails. -/
def capitaliseAll : List String → Option (List String)
  | [] => some []
  | key :: rest =>
    match capitalise key with
    | none => none
    | some name =>
      match capitaliseAll rest with
      | none => none
      | some names => some (name :: names)

/-- The order of Go strings on their runes: lexicographic by code point, a
proper prefix coming first. -/
def runesLe : List Char → List Char → Bool
  | [], _ => true
  | _ :: _, [] => false
  | a :: as, b :: bs =>
    if a.toNat < b.toNat then true
    else if b.toNat < a.toNat then false
    else runesLe as bs

/-- The comparison `a <= b` of two Go strings. -/
def stringLe (a b : String) : Bool := runesLe a.data b.data

/-- Go `sort.Strings`: the strings in ascending order. The order is total and
equal strings are identical, so the ascending arrangement is the same for every
sorting algorithm; it is computed here by insertion. -/
def sortStrings (l : List String) : List String :=
  l.insertionSort (fun a b => stringLe a b = true)

/-- `handlers.GetCategories`; `none` is a runtime failure inside the loop. -/
def GetCategories (questions : Catalog) : Option Response :=
  if questions.length = 0 then
    some (prepareResponse false "An unexpected error occurred. Please try again later." 500
      .empty)
  else
    match capitaliseAll questions.keys with
    | none => none
    | some categories =>
      some (prepareResponse true "Categories retrieved successfully." 200
        (.categories (sortStrings categories ++ ["Random"])))

/-- The answer of every handler to an uninitialised catalog or ledger. -/
def serviceUnavailableResponse : Response :=
  prepareResponse false "An unexpected error occurred. Please try again later." 500 .empty

/-- The key with its first rune upper-cased, the empty key left as it is. -/
def capitalised (key : String) : String :=
  match key.data with
  | [] => key
  | r :: rest => ⟨toUpperRune r :: rest⟩

/-- The catalog of end-to-end scenario 1: `science` and `math`, one question each. -/
def twoCatalog : Catalog := [("science", [waterQuestion]), ("math", [sumQuestion])]

/-- The catalog of `TestGetCategories`. -/
def fourCatalog : Catalog := [("science", []), ("math", []), ("history", []), ("computing", [])]

/-- A catalog whose only key is the empty string. -/
def onlyEmptyKeyCatalog : Catalog := [("", [])]

/-- The ledger of the failure cases of `TestSubmitAnswers`. -/
def failureLedger : Ledger := [("science", [50, 60])]

/-- A submission without answers to the unknown category `history`. -/
def noAnswersSubmission : QuizResponse := { Category := "history", QuestionResponses := [] }

/-- A submission to the unknown category `history` whose only answer has a null
question. -/
def nullQuestionSubmission : QuizResponse :=
  { Category := "history", QuestionResponses := [{ Question := none, Answer := 0 }] }

/-- The fifth question of `getTestQuestions` in the tests of the shuffle. -/
def shiningQuestion : Question :=
  { ID := 5, Category := "books", Question := "Who wrote 'The Shining'?",
    Answers := ["Stephen King", "Mark Twain", "Jane Austen", "Agatha Christie"],
    CorrectAnswerIndex := 0 }

/-- The five questions with the IDs 1 to 5 of `TestShuffledCopyDifferentOrder`. -/
def shuffleTestQuestions : Questions := testQuestions ++ [shiningQuestion]

/-! ## `float64` with its special values -/

/-- A Go `float64` as far as the range guard of the ledger can tell values
apart: a number, read as an exact rational, one of the two infinities, or NaN. -/
inductive GoFloat where
  | num (q : ℚ)
  | posInf
  | negInf
  | nan
  deriving DecidableEq

/-- The comparison `a < b` of two `float64` values; it is false as soon as one
side is NaN. -/
def GoFloat.lt : GoFloat → GoFloat → Bool
  | .num x, .num y => decide (x < y)
  | .num _, .posInf => true
  | .negInf, .num _ => true
  | .negInf, .posInf => true
  | _, _ => false

/-- A `float64` lies in the inclusive range `[0,100]`. -/
def GoFloat.inRange : GoFloat → Prop
  | .num q => 0 ≤ q ∧ q ≤ 100
  | _ => False

/-- The ledger `map[string][]float64` with the special values of `float64`. -/
abbrev FloatLedger := List (String × List GoFloat)

/-- Map lookup `scores, exists := m[k]`; `none` when the key is absent. -/
def FloatLedger.get : FloatLedger → String → Option (List GoFloat)
  | [], _ => none
  | (k, v) :: rest, key => if k = key then some v else FloatLedger.get rest key

/-- Map assignment `m[k] = v` for a key that is already bound. -/
def FloatLedger.put (m : FloatLedger) (key : String) (v : List GoFloat) : FloatLedger :=
  m.map (fun kv => if kv.1 = key then (kv.1, v) else kv)

/-- `utils.AppendCategoryScore` over `float64` scores with their special
values: the guard is `newScore < 0.0 || newScore > 100.0`. -/
def AppendCategoryScoreFloat (ledger : FloatLedger) (category : String) (newScore : GoFloat) :
    Option String × FloatLedger :=
  let category := ToLower (Trim category " ")
  if category.length = 0 then
    (some "a category must be provided", ledger)
  else
    match ledger.get category with
    | none => (some ("category '" ++ category ++ "' does not exist"), ledger)
    | some scores =>
      if GoFloat.lt newScore (.num 0) || GoFloat.lt (.num 100) newScore then
        (some "score must be a value between 0 and 100", ledger)
      else
        (none, ledger.put category (scores ++ [newScore]))

/-- A ledger of rational scores as a ledger of `float64` numbers. -/
def Ledger.toFloat (m : Ledger) : FloatLedger :=
  m.map (fun kv => (kv.1, kv.2.map GoFloat.num))

/-- A `float64` ledger whose category `science` holds the scores 50 and 60. -/
def numberLedger : FloatLedger := [("science", [.num 50, .num 60])]

/-! ## Auxiliary lemmas -/

theorem length_eq_zero_iff_eq_empty (s : String) : s.length = 0 ↔ s = "" := by
  cases s with
  | mk l =>
    cases l with
    | nil => simp [String.length]
    | cons c cs =>
      simp only [String.length, List.length_cons, Nat.succ_ne_zero, false_iff]
      intro h
      have h2 := congrArg String.data h
      simp at h2

theorem betterThanCount_foldl (newScore : ℚ) (scores : List ℚ) (init : Nat) :
    scores.foldl (fun count score => if newScore > score then count + 1 else count) init
      = init + scores.countP (fun s => decide (s < newScore)) := by
  induction scores generalizing init with
  | nil => simp
  | cons s rest ih =>
    simp only [List.foldl_cons, List.countP_cons, ih]
    by_cases h : s < newScore
    · simp [h]; omega
    · simp [h]

theorem betterThanCount_eq_countP (newScore : ℚ) (scores : List ℚ) :
    betterThanCount newScore scores = scores.countP (fun s => decide (s < newScore)) := by
  simp [betterThanCount, betterThanCount_foldl]

theorem toLowerRune_upper (c : Char) (h : c.toNat ≥ 65 ∧ c.toNat ≤ 90) :
    toLowerRune (toLowerRune c) = toLowerRune c ∧ toLowerRune c ≠ ' ' ∧ c ≠ ' ' := by
  obtain ⟨h1, h2⟩ := h
  have hc : c = Char.ofNat c.toNat := (Char.ofNat_toNat c).symm
  generalize c.toNat = n at h1 h2 hc
  subst hc
  interval_cases n <;> decide

theorem toLowerRune_other (c : Char) (h : ¬ (c.toNat ≥ 65 ∧ c.toNat ≤ 90)) :
    toLowerRune c = c := by
  simp [toLowerRune, Char.toLower, h]

theorem toLowerRune_idem (c : Char) : toLowerRune (toLowerRune c) = toLowerRune c := by
  by_cases h : c.toNat ≥ 65 ∧ c.toNat ≤ 90
  · exact (toLowerRune_upper c h).1
  · rw [toLowerRune_other c h, toLowerRune_other c h]

theorem toLowerRune_eq_space (c : Char) : toLowerRune c = ' ' ↔ c = ' ' := by
  by_cases h : c.toNat ≥ 65 ∧ c.toNat ≤ 90
  · have := toLowerRune_upper c h
    exact ⟨fun h2 => absurd h2 this.2.1, fun h2 => absurd h2 this.2.2⟩
  · rw [toLowerRune_other c h]

theorem dropWhile_rdropWhile_dropWhile {α : Type} (p : α → Bool) (l : List α) :
    List.dropWhile p (List.rdropWhile p (List.dropWhile p l)) =
      List.rdropWhile p (List.dropWhile p l) := by
  obtain ⟨r, hr⟩ := List.rdropWhile_prefix p (l := List.dropWhile p l)
  have h := List.head?_dropWhile_not p l
  rw [← hr] at h
  cases ht : List.rdropWhile p (List.dropWhile p l) with
  | nil => rfl
  | cons a t =>
    rw [ht] at h
    simp only [List.cons_append, List.head?_cons] at h
    simp [List.dropWhile_cons, h]

theorem normalise_data (s : String) :
    (normalise s).data =
      (List.rdropWhile (fun c => decide (c ∈ " ".data))
        (List.dropWhile (fun c => decide (c ∈ " ".data)) s.data)).map toLowerRune := rfl

theorem space_comp_toLowerRune :
    (fun c => decide (c ∈ " ".data)) ∘ toLowerRune = (fun c => decide (c ∈ " ".data)) := by
  funext c
  have h : " ".data = [' '] := rfl
  simp only [Function.comp, h, List.mem_singleton, toLowerRune_eq_space]

theorem rdropWhile_map {α : Type} (p : α → Bool) (f : α → α) (l : List α) :
    List.rdropWhile p (l.map f) = (List.rdropWhile (p ∘ f) l).map f := by
  simp only [List.rdropWhile, ← List.map_reverse, List.dropWhile_map]

theorem trim_map_idem {α : Type} (p : α → Bool) (f : α → α) (hp : p ∘ f = p)
    (hf : ∀ a, f (f a) = f a) (l : List α) :
    (List.rdropWhile p (List.dropWhile p
        ((List.rdropWhile p (List.dropWhile p l)).map f))).map f =
      (List.rdropWhile p (List.dropWhile p l)).map f := by
  rw [List.dropWhile_map, hp, dropWhile_rdropWhile_dropWhile, rdropWhile_map, hp,
    List.rdropWhile_idempotent, List.map_map]
  apply List.map_congr_left
  intro a _
  exact hf a

theorem normalise_idem (s : String) : normalise (normalise s) = normalise s := by
  apply String.ext
  rw [normalise_data (normalise s), normalise_data s]
  exact trim_map_idem _ _ space_comp_toLowerRune toLowerRune_idem s.data

theorem CalculateComparison_of_get (ledger : Ledger) (category : String) (newScore : ℚ)
    (scores : List ℚ) (hkey : normalise category ≠ "")
    (hget : ledger.get (normalise category) = some scores)
    (h0 : 0 ≤ newScore) (h100 : newScore ≤ 100) :
    CalculateComparison ledger category newScore =
      (if scores = [] then 0
        else 100 * (scores.countP (fun s => decide (s < newScore)) : ℚ) / (scores.length : ℚ),
        none) := by
  unfold normalise at hkey hget
  have hlen : ¬ (ToLower (Trim category " ")).length = 0 := by
    rw [length_eq_zero_iff_eq_empty]; exact hkey
  have hrange : ¬ (newScore < 0 ∨ newScore > 100) := by
    rintro (h | h)
    · exact absurd h (not_lt.mpr h0)
    · exact absurd h (not_lt.mpr h100)
  simp only [CalculateComparison, hlen, if_false, hget, hrange, List.length_eq_zero,
    betterThanCount_eq_countP]
  split
  · rfl
  · congr 1
    ring

theorem testLedger_science : testLedger.get (normalise "science") = some [50, 60, 70, 80, 90] := by
  simp [testLedger, Ledger.get]; decide

/-! ## Theorems on `CalculateComparison` -/

/-- C1 (as amended): for every ledger, every category whose normalised key is
non-empty and bound in the ledger to the history `scores`, and every `newScore`
in `[0,100]`, `CalculateComparison` succeeds; it returns 0 on an empty history
and otherwise `100 * #{s ∈ scores | s < newScore} / #scores`. -/
theorem CalculateComparison_percentage (ledger : Ledger) (category : String) (newScore : ℚ)
    (scores : List ℚ) (hkey : normalise category ≠ "")
    (hget : ledger.get (normalise category) = some scores)
    (h0 : 0 ≤ newScore) (h100 : newScore ≤ 100) :
    CalculateComparison ledger category newScore =
      (if scores = [] then 0
        else 100 * (scores.countP (fun s => decide (s < newScore)) : ℚ) / (scores.length : ℚ),
        none) :=
  CalculateComparison_of_get ledger category newScore scores hkey hget h0 h100

/-- Witness for C1 from `TestCalculateComparison`: history `[50,60,70,80,90]` and
`newScore` 75 give 60. -/
theorem CalculateComparison_percentage_witness :
    CalculateComparison testLedger "science" 75 = (60, none) := by
  have h := CalculateComparison_percentage testLedger "science" 75 [50, 60, 70, 80, 90]
    (by decide) testLedger_science (by norm_num) (by norm_num)
  rw [h, if_neg (List.cons_ne_nil _ _)]
  simp only [List.countP_cons, List.countP_nil, List.length_cons, List.length_nil]
  norm_num

/-- C1 (counterexample to the claim as stated): a ledger may bind the empty
key; the category `""` then normalises to a key of the ledger, the score 50 is
in range, and yet `CalculateComparison` fails. -/
theorem CalculateComparison_empty_key_fails :
    Ledger.get [("", [])] (normalise "") = some [] ∧ (0 : ℚ) ≤ 50 ∧ (50 : ℚ) ≤ 100 ∧
      CalculateComparison [("", [])] "" 50 = (0, some "a category must be provided") := by
  refine ⟨by decide, by norm_num, by norm_num, ?_⟩
  have h : (ToLower (Trim "" " ")).length = 0 := by decide
  simp [CalculateComparison, h]

/-- C2 (counterexample to the claim as stated): with the prior scores
`[50,60,70,80,90]` the comparison of 75 is not 40. -/
theorem CalculateComparison_scenario_not_40 :
    CalculateComparison testLedger "science" 75 ≠ (40, none) := by
  rw [CalculateComparison_of_get testLedger "science" 75 [50, 60, 70, 80, 90]
    (by decide) testLedger_science (by norm_num) (by norm_num), if_neg (List.cons_ne_nil _ _)]
  simp only [List.countP_cons, List.countP_nil, List.length_cons, List.length_nil]
  norm_num

/-- C2 (as amended): comparing a new score of 75 against a category whose prior
scores are `[50,60,70,80,90]` yields 60, three of the five prior scores being
strictly below 75. -/
theorem CalculateComparison_scenario_60 (ledger : Ledger) (category : String)
    (hkey : normalise category ≠ "")
    (hget : ledger.get (normalise category) = some [50, 60, 70, 80, 90]) :
    CalculateComparison ledger category 75 = (60, none) ∧
      betterThanCount 75 [50, 60, 70, 80, 90] = 3 := by
  constructor
  · rw [CalculateComparison_of_get ledger category 75 [50, 60, 70, 80, 90] hkey hget
      (by norm_num) (by norm_num), if_neg (List.cons_ne_nil _ _)]
    simp only [List.countP_cons, List.countP_nil, List.length_cons, List.length_nil]
    norm_num
  · rw [betterThanCount_eq_countP]
    simp only [List.countP_cons, List.countP_nil]
    norm_num

/-- Witness for C2 on the ledger of `TestCalculateComparison`. -/
theorem CalculateComparison_scenario_60_witness :
    CalculateComparison testLedger "science" 75 = (60, none) ∧
      betterThanCount 75 [50, 60, 70, 80, 90] = 3 :=
  CalculateComparison_scenario_60 testLedger "science" (by decide) testLedger_science

/-! ## Theorems on `CalculateScore` -/

theorem scoreLoop_eq (responses : List QuestionResponse) (init : Nat) :
    scoreLoop responses init =
      if ∀ r ∈ responses, r.Question ≠ none then some (init + correctCount responses)
      else none := by
  induction responses generalizing init with
  | nil => simp [scoreLoop, correctCount]
  | cons r rest ih =>
    cases hq : r.Question with
    | none =>
      have : ¬ ∀ x ∈ r :: rest, x.Question ≠ none := fun h => h r (List.mem_cons_self _ _) hq
      simp [scoreLoop, hq]
    | some q =>
      by_cases hc : q.CorrectAnswerIndex = r.Answer
      · simp only [scoreLoop, hq, hc, if_true, ih, List.forall_mem_cons, ne_eq,
          not_false_eq_true, true_and, reduceCtorEq, correctCount, List.countP_cons, isCorrect,
          decide_True]
        split <;> simp; omega
      · simp only [scoreLoop, hq, hc, if_false, ih, List.forall_mem_cons, ne_eq,
          not_false_eq_true, true_and, reduceCtorEq, correctCount, List.countP_cons, isCorrect,
          decide_False]
        split <;> simp

theorem CalculateScore_of_valid (responses : List QuestionResponse) (hne : responses ≠ [])
    (hq : ∀ r ∈ responses, r.Question ≠ none) :
    CalculateScore responses =
      (toString (correctCount responses) ++ "/" ++ toString responses.length,
        100 * (correctCount responses : ℚ) / (responses.length : ℚ), none) := by
  have hlen : ¬ responses.length = 0 := by simpa using hne
  have hloop : scoreLoop responses 0 = some (correctCount responses) := by
    rw [scoreLoop_eq, if_pos hq, Nat.zero_add]
  simp only [CalculateScore, hlen, if_false, hloop]
  congr 2
  ring_nf

theorem CalculateScore_of_nil_question (responses : List QuestionResponse) (hne : responses ≠ [])
    (hq : ∃ r ∈ responses, r.Question = none) :
    CalculateScore responses = ("", 0, some "one or more answers were invalid") := by
  have hlen : ¬ responses.length = 0 := by simpa using hne
  have hall : ¬ ∀ r ∈ responses, r.Question ≠ none := by
    obtain ⟨r, hr, hn⟩ := hq
    exact fun h => h r hr hn
  simp [CalculateScore, hlen, scoreLoop_eq, hall]

theorem correctCount_le_length (responses : List QuestionResponse) :
    correctCount responses ≤ responses.length := List.countP_le_length _

theorem testResponsesOutOfBounds_valid :
    ∀ r ∈ testResponsesOutOfBounds, r.Question ≠ none := by decide

theorem CalculateScore_testResponsesOutOfBounds :
    CalculateScore testResponsesOutOfBounds = ("3/4", 75, none) := by
  rw [CalculateScore_of_valid testResponsesOutOfBounds (by decide)
    testResponsesOutOfBounds_valid]
  have hc : correctCount testResponsesOutOfBounds = 3 := by decide
  have hl : testResponsesOutOfBounds.length = 4 := by decide
  have hs : toString 3 ++ "/" ++ toString 4 = "3/4" := by decide
  rw [hc, hl, hs]
  norm_num

/-- C3: for every non-empty list of responses in which every question is
non-null, `CalculateScore` succeeds and returns the string `"<correct>/<total>"`
and the percentage `100 * correct / total`, which lies in `[0,100]`; `total` is
the number of responses and `correct` the number of responses whose answer
index equals the question's `CorrectAnswerIndex`. -/
theorem CalculateScore_valid (responses : List QuestionResponse) (hne : responses ≠ [])
    (hq : ∀ r ∈ responses, r.Question ≠ none) :
    CalculateScore responses =
        (toString (correctCount responses) ++ "/" ++ toString responses.length,
          100 * (correctCount responses : ℚ) / (responses.length : ℚ), none) ∧
      0 ≤ 100 * (correctCount responses : ℚ) / (responses.length : ℚ) ∧
      100 * (correctCount responses : ℚ) / (responses.length : ℚ) ≤ 100 := by
  refine ⟨CalculateScore_of_valid responses hne hq, by positivity, ?_⟩
  have hpos : (0 : ℚ) < (responses.length : ℚ) := by
    have : 0 < responses.length := List.length_pos.mpr hne
    exact_mod_cast this
  rw [div_le_iff₀ hpos]
  have hle : (correctCount responses : ℚ) ≤ (responses.length : ℚ) := by
    exact_mod_cast correctCount_le_length responses
  linarith

/-- Witness for C3 from `TestCalculateScore`: three correct responses of four
give `"3/4"` and 75. -/
theorem CalculateScore_valid_witness :
    CalculateScore testResponsesOutOfBounds =
        (toString (correctCount testResponsesOutOfBounds) ++ "/" ++
          toString testResponsesOutOfBounds.length,
          100 * (correctCount testResponsesOutOfBounds : ℚ) /
            (testResponsesOutOfBounds.length : ℚ), none) ∧
      correctCount testResponsesOutOfBounds = 3 ∧ testResponsesOutOfBounds.length = 4 :=
  ⟨(CalculateScore_valid testResponsesOutOfBounds (by decide)
      testResponsesOutOfBounds_valid).1, by decide, by decide⟩

/-- C4: `CalculateScore` fails if and only if the response list is empty or
some response has a null question; the error is "no answers were submitted" in
the first case and "one or more answers were invalid" in the second, and every
failure returns the empty string and the percentage 0. -/
theorem CalculateScore_fails_iff (responses : List QuestionResponse) :
    ((CalculateScore responses).2.2 ≠ none ↔
        responses = [] ∨ ∃ r ∈ responses, r.Question = none) ∧
      (responses = [] →
        CalculateScore responses = ("", 0, some "no answers were submitted")) ∧
      (responses ≠ [] → (∃ r ∈ responses, r.Question = none) →
        CalculateScore responses = ("", 0, some "one or more answers were invalid")) ∧
      ((CalculateScore responses).2.2 ≠ none →
        (CalculateScore responses).1 = "" ∧ (CalculateScore responses).2.1 = 0) := by
  have hnil : CalculateScore [] = ("", 0, some "no answers were submitted") := by
    simp [CalculateScore]
  by_cases hne : responses = []
  · subst hne
    simp [hnil]
  · by_cases hq : ∃ r ∈ responses, r.Question = none
    · have h := CalculateScore_of_nil_question responses hne hq
      refine ⟨?_, fun h0 => absurd h0 hne, fun _ _ => h, ?_⟩
      · simp [h, hq]
      · simp [h]
    · have hall : ∀ r ∈ responses, r.Question ≠ none := by
        intro r hr hn
        exact hq ⟨r, hr, hn⟩
      have h := CalculateScore_of_valid responses hne hall
      refine ⟨?_, fun h0 => absurd h0 hne, fun _ h1 => absurd h1 hq, ?_⟩
      · simp [h, hne, hq]
      · simp [h]

/-- C5 (counterexample to the claim as stated): the question carries its own
correct-answer index, which may itself be out of range; the submitted index -1
is negative and is counted as correct. -/
theorem CalculateScore_counts_out_of_range :
    illFormedQuestion.Answers.length = 4 ∧
      ({ Question := some illFormedQuestion, Answer := -1 } : QuestionResponse).Answer < 0 ∧
      CalculateScore [{ Question := some illFormedQuestion, Answer := -1 }] =
        ("1/1", 100, none) := by
  refine ⟨by decide, by decide, ?_⟩
  rw [CalculateScore_of_valid _ (by decide) (by decide)]
  have hc : correctCount [{ Question := some illFormedQuestion, Answer := -1 }] = 1 := by
    decide
  have hs : toString 1 ++ "/" ++ toString 1 = "1/1" := by decide
  rw [hc]
  simp only [List.length_singleton]
  rw [hs]
  norm_num

/-- C5 (as amended): for every response with a non-null question whose
`CorrectAnswerIndex` is a valid index into its answers and whose submitted
answer index is negative or at least the number of answers, `CalculateScore`
raises no error on account of that response (it fails only if another response
has a null question) and does not count it as correct (the score is the number
of correct responses among the others). -/
theorem CalculateScore_out_of_range (pre post : List QuestionResponse) (q : Question)
    (answer : Int)
    (hvalid : 0 ≤ q.CorrectAnswerIndex ∧ q.CorrectAnswerIndex < (q.Answers.length : Int))
    (hout : answer < 0 ∨ (q.Answers.length : Int) ≤ answer) :
    ((CalculateScore (pre ++ { Question := some q, Answer := answer } :: post)).2.2 = none ↔
        ∀ r ∈ pre ++ post, r.Question ≠ none) ∧
      ((∀ r ∈ pre ++ post, r.Question ≠ none) →
        CalculateScore (pre ++ { Question := some q, Answer := answer } :: post) =
          (toString (correctCount (pre ++ post)) ++ "/" ++
              toString (pre ++ { Question := some q, Answer := answer } :: post).length,
            100 * (correctCount (pre ++ post) : ℚ) /
              ((pre ++ { Question := some q, Answer := answer } :: post).length : ℚ), none)) := by
  have hne : pre ++ { Question := some q, Answer := answer } :: post ≠ [] := by simp
  have hneq : q.CorrectAnswerIndex ≠ answer := by omega
  have hcount : correctCount (pre ++ { Question := some q, Answer := answer } :: post) =
      correctCount (pre ++ post) := by
    simp [correctCount, List.countP_append, List.countP_cons, isCorrect, hneq]
  have hmem : (∀ r ∈ pre ++ { Question := some q, Answer := answer } :: post,
      r.Question ≠ none) ↔ ∀ r ∈ pre ++ post, r.Question ≠ none := by
    simp only [List.mem_append, List.mem_cons]
    constructor
    · intro h r hr
      rcases hr with hr | hr
      · exact h r (Or.inl hr)
      · exact h r (Or.inr (Or.inr hr))
    · intro h r hr
      rcases hr with hr | hr | hr
      · exact h r (Or.inl hr)
      · subst hr; simp
      · exact h r (Or.inr hr)
  constructor
  · constructor
    · intro herr
      by_contra hcon
      have hex : ∃ r ∈ pre ++ { Question := some q, Answer := answer } :: post,
          r.Question = none := by
        by_contra hno
        exact hcon (hmem.mp (fun r hr hn => hno ⟨r, hr, hn⟩))
      rw [CalculateScore_of_nil_question _ hne hex] at herr
      simp at herr
    · intro hall
      rw [CalculateScore_of_valid _ hne (hmem.mpr hall)]
  · intro hall
    rw [CalculateScore_of_valid _ hne (hmem.mpr hall), hcount]

/-- Witness for C5 from `TestCalculateScore`: the index 5 submitted for a
question with four answers is not counted, and the score is `"3/4"`, 75. -/
theorem CalculateScore_out_of_range_witness :
    (0 ≤ waterQuestion.CorrectAnswerIndex ∧
        waterQuestion.CorrectAnswerIndex < (waterQuestion.Answers.length : Int)) ∧
      ((5 : Int) < 0 ∨ (waterQuestion.Answers.length : Int) ≤ 5) ∧
      CalculateScore ([] ++ { Question := some waterQuestion, Answer := 5 } ::
        testResponsesTail) = ("3/4", 75, none) := by
  refine ⟨by decide, by decide, ?_⟩
  rw [(CalculateScore_out_of_range [] testResponsesTail waterQuestion 5 (by decide)
    (by decide)).2 (by decide)]
  have hc : correctCount ([] ++ testResponsesTail) = 3 := by decide
  have hl : ([] ++ ({ Question := some waterQuestion, Answer := 5 } : QuestionResponse) ::
      testResponsesTail).length = 4 := by decide
  have hs : toString 3 ++ "/" ++ toString 4 = "3/4" := by decide
  rw [hc, hl, hs]
  norm_num

/-! ## Theorems on `ShuffledCopy` -/

theorem cons_set_perm {α : Type} (x b : α) (xs : List α) (j : Nat) (h : xs[j]? = some b) :
    (b :: xs.set j x).Perm (x :: xs) := by
  induction xs generalizing j with
  | nil => simp at h
  | cons y ys ih =>
    cases j with
    | zero =>
      simp only [List.getElem?_cons_zero, Option.some.injEq] at h
      subst h
      simpa using List.Perm.swap x y ys
    | succ j =>
      simp only [List.getElem?_cons_succ] at h
      simp only [List.set_cons_succ]
      exact ((List.Perm.swap y b _).trans ((ih j h).cons y)).trans (List.Perm.swap x y ys)

theorem set_set_perm {α : Type} (l : List α) (i j : Nat) (a b : α) (hi : l[i]? = some a)
    (hj : l[j]? = some b) : ((l.set i b).set j a).Perm l := by
  induction l generalizing i j with
  | nil => simp at hi
  | cons x xs ih =>
    cases i with
    | zero =>
      simp only [List.getElem?_cons_zero, Option.some.injEq] at hi
      subst hi
      cases j with
      | zero =>
        simp only [List.getElem?_cons_zero, Option.some.injEq] at hj
        simp
      | succ j =>
        simp only [List.getElem?_cons_succ] at hj
        simpa using cons_set_perm x b xs j hj
    | succ i =>
      simp only [List.getElem?_cons_succ] at hi
      cases j with
      | zero =>
        simp only [List.getElem?_cons_zero, Option.some.injEq] at hj
        subst hj
        simpa using cons_set_perm x a xs i hi
      | succ j =>
        simp only [List.getElem?_cons_succ] at hj
        simpa using ih i j hi hj

theorem swapAt_some (cpy : Questions) (i j : Nat) (hi : i < cpy.length) (hj : j < cpy.length) :
    ∃ out, swapAt cpy i j = some out ∧ out.Perm cpy := by
  have h1 : cpy[i]? = some cpy[i] := List.getElem?_eq_getElem hi
  have h2 : cpy[j]? = some cpy[j] := List.getElem?_eq_getElem hj
  refine ⟨(cpy.set i cpy[j]).set j cpy[i], ?_, set_set_perm cpy i j _ _ h1 h2⟩
  simp [swapAt, h1, h2]

theorem shuffleLoop_perm (rnd : Nat → Nat) (idx : List Nat) (cpy : Questions)
    (h : ∀ i ∈ idx, i < cpy.length) :
    ∃ out, shuffleLoop rnd idx cpy = some out ∧ out.Perm cpy := by
  induction idx generalizing cpy with
  | nil => exact ⟨cpy, rfl, List.Perm.refl _⟩
  | cons i rest ih =>
    have hi : i < cpy.length := h i (List.mem_cons_self _ _)
    have hj : rnd i % (i + 1) < cpy.length :=
      lt_of_lt_of_le (Nat.mod_lt _ (Nat.succ_pos i)) hi
    obtain ⟨mid, hmid, hperm⟩ := swapAt_some cpy i (rnd i % (i + 1)) hi hj
    have hrest : ∀ k ∈ rest, k < mid.length := by
      intro k hk
      rw [hperm.length_eq]
      exact h k (List.mem_cons_of_mem _ hk)
    obtain ⟨out, hout, hperm2⟩ := ih mid hrest
    exact ⟨out, by simp [shuffleLoop, hmid, hout], hperm2.trans hperm⟩

theorem ShuffledCopy_some (q : Questions) (rnd : Nat → Nat) :
    ∃ out, ShuffledCopy q rnd = some out ∧ out.Perm q :=
  shuffleLoop_perm rnd (List.range q.length) q (fun _ hi => List.mem_range.mp hi)

/-- C6: for every sequence of questions and every outcome of the random index
choices, `ShuffledCopy` returns (without an index failure) a permutation of its
input: a sequence of the same length holding the same multiset of questions. -/
theorem ShuffledCopy_permutation (q : Questions) (rnd : Nat → Nat) :
    ∃ out, ShuffledCopy q rnd = some out ∧ out.length = q.length ∧
      (out : Multiset Question) = (q : Multiset Question) ∧ out.Perm q := by
  obtain ⟨out, hout, hperm⟩ := ShuffledCopy_some q rnd
  exact ⟨out, hout, hperm.length_eq, Multiset.coe_eq_coe.mpr hperm, hperm⟩

theorem shuffleLoop_append (rnd : Nat → Nat) (idx idx2 : List Nat) (cpy : Questions) :
    shuffleLoop rnd (idx ++ idx2) cpy = (shuffleLoop rnd idx cpy).bind (shuffleLoop rnd idx2) := by
  induction idx generalizing cpy with
  | nil => simp [shuffleLoop]
  | cons i rest ih =>
    simp only [List.cons_append, shuffleLoop]
    cases swapAt cpy i (rnd i % (i + 1)) with
    | none => simp
    | some mid => simpa using ih mid

theorem swapAt_append (a b : Questions) (i j : Nat) (hi : i < a.length) (hj : j < a.length) :
    swapAt (a ++ b) i j = (swapAt a i j).map (· ++ b) := by
  have h1 : a[i]? = some a[i] := List.getElem?_eq_getElem hi
  have h2 : a[j]? = some a[j] := List.getElem?_eq_getElem hj
  have h3 : (a ++ b)[i]? = some a[i] := by rw [List.getElem?_append_left hi, h1]
  have h4 : (a ++ b)[j]? = some a[j] := by rw [List.getElem?_append_left hj, h2]
  simp only [swapAt, h1, h2, h3, h4, Option.map_some']
  rw [List.set_append_left _ _ hi, List.set_append_left _ _ (by simpa using hj)]

theorem shuffleLoop_append_right (rnd : Nat → Nat) (idx : List Nat) (a b : Questions)
    (h : ∀ i ∈ idx, i < a.length) :
    shuffleLoop rnd idx (a ++ b) = (shuffleLoop rnd idx a).map (· ++ b) := by
  induction idx generalizing a with
  | nil => simp [shuffleLoop]
  | cons i rest ih =>
    have hi : i < a.length := h i (List.mem_cons_self _ _)
    have hj : rnd i % (i + 1) < a.length :=
      lt_of_lt_of_le (Nat.mod_lt _ (Nat.succ_pos i)) hi
    obtain ⟨mid, hmid, hperm⟩ := swapAt_some a i (rnd i % (i + 1)) hi hj
    have hrest : ∀ k ∈ rest, k < mid.length := by
      intro k hk
      rw [hperm.length_eq]
      exact h k (List.mem_cons_of_mem _ hk)
    simp only [shuffleLoop, swapAt_append a b i _ hi hj, hmid, Option.map_some']
    exact ih mid hrest

theorem shuffleLoop_congr (rnd rnd2 : Nat → Nat) (idx : List Nat) (cpy : Questions)
    (h : ∀ i ∈ idx, rnd i % (i + 1) = rnd2 i % (i + 1)) :
    shuffleLoop rnd idx cpy = shuffleLoop rnd2 idx cpy := by
  induction idx generalizing cpy with
  | nil => rfl
  | cons i rest ih =>
    simp only [shuffleLoop, h i (List.mem_cons_self _ _)]
    cases swapAt cpy i (rnd2 i % (i + 1)) with
    | none => rfl
    | some mid => exact ih mid (fun k hk => h k (List.mem_cons_of_mem _ hk))

theorem ShuffledCopy_congr (rnd rnd2 : Nat → Nat) (q : Questions)
    (h : ∀ i, i < q.length → rnd i % (i + 1) = rnd2 i % (i + 1)) :
    ShuffledCopy q rnd = ShuffledCopy q rnd2 :=
  shuffleLoop_congr rnd rnd2 _ q (fun i hi => h i (List.mem_range.mp hi))

theorem ShuffledCopy_snoc (l : Questions) (x : Question) (rnd : Nat → Nat) :
    ShuffledCopy (l ++ [x]) rnd =
      (ShuffledCopy l rnd).bind
        (fun mid => swapAt (mid ++ [x]) l.length (rnd l.length % (l.length + 1))) := by
  have hlen : (l ++ [x]).length = l.length + 1 := by simp
  unfold ShuffledCopy
  rw [hlen, List.range_succ, shuffleLoop_append,
    shuffleLoop_append_right rnd _ l [x] (fun _ hi => List.mem_range.mp hi)]
  cases shuffleLoop rnd (List.range l.length) l with
  | none => rfl
  | some mid =>
    simp only [Option.map_some', Option.some_bind, shuffleLoop]
    cases swapAt (mid ++ [x]) l.length (rnd l.length % (l.length + 1)) <;> rfl

theorem swapAt_snoc_last (mid : Questions) (x : Question) :
    swapAt (mid ++ [x]) mid.length mid.length = some (mid ++ [x]) := by
  have h : (mid ++ [x])[mid.length]? = some x := by simp
  simp only [swapAt, h]
  congr 1
  simp

theorem swapAt_snoc_lt (mid : Questions) (x : Question) (j : Nat) (hj : j < mid.length) :
    swapAt (mid ++ [x]) mid.length j = some (mid.set j x ++ [mid[j]]) := by
  have h1 : (mid ++ [x])[mid.length]? = some x := by simp
  have h2 : (mid ++ [x])[j]? = some mid[j] := by
    rw [List.getElem?_append_left hj, List.getElem?_eq_getElem hj]
  simp only [swapAt, h1, h2]
  congr 1
  rw [List.set_append_right _ _ (le_refl _), List.set_append_left _ _ hj]
  simp

theorem set_eq_self_of_getElem {α : Type} (l : List α) (j : Nat) (x : α) (hj : j < l.length)
    (h : l[j] = x) : l.set j x = l := by
  apply List.ext_getElem? 
  intro k
  by_cases hk : j = k
  · subst hk
    rw [List.getElem?_set_self hj, List.getElem?_eq_getElem hj, h]
  · rw [List.getElem?_set_ne hk]

theorem swapAt_snoc_inj (mid mid2 : Questions) (x : Question) (j j2 : Nat)
    (hlen : mid2.length = mid.length) (hx2 : x ∉ mid2) (hx : x ∉ mid)
    (hj : j ≤ mid.length) (hj2 : j2 ≤ mid.length)
    (h : swapAt (mid ++ [x]) mid.length j = swapAt (mid2 ++ [x]) mid2.length j2) :
    j = j2 ∧ mid = mid2 := by
  rcases Nat.lt_or_eq_of_le hj with hlt | heq
  · rcases Nat.lt_or_eq_of_le hj2 with hlt2 | heq2
    · have hlt2' : j2 < mid2.length := by omega
      rw [swapAt_snoc_lt mid x j hlt, swapAt_snoc_lt mid2 x j2 hlt2'] at h
      have h' := List.append_inj' (Option.some.inj h) rfl
      obtain ⟨hset, hlast⟩ := h'
      have hjj : j = j2 := by
        by_contra hne
        have h1 : (mid.set j x)[j]? = some x := List.getElem?_set_self hlt
        rw [hset, List.getElem?_set_ne (fun h => hne h.symm)] at h1
        exact hx2 (List.mem_iff_getElem?.mpr ⟨j, h1⟩)
      subst hjj
      refine ⟨rfl, ?_⟩
      apply List.ext_getElem?
      intro k
      by_cases hk : j = k
      · subst hk
        rw [List.getElem?_eq_getElem hlt, List.getElem?_eq_getElem hlt2']
        simpa using hlast
      · have h1 := congrArg (fun l => l[k]?) hset
        simpa [List.getElem?_set_ne hk] using h1
    · subst heq2
      rw [swapAt_snoc_lt mid x j hlt, ← hlen, swapAt_snoc_last mid2 x] at h
      have h' := List.append_inj' (Option.some.inj h) rfl
      have hmem : x ∈ mid := by
        have : mid[j] = x := by simpa using h'.2
        rw [← this]
        exact List.getElem_mem hlt
      exact absurd hmem hx
  · subst heq
    rcases Nat.lt_or_eq_of_le hj2 with hlt2 | heq2
    · have hlt2' : j2 < mid2.length := by omega
      rw [swapAt_snoc_last mid x, swapAt_snoc_lt mid2 x j2 hlt2'] at h
      have h' := List.append_inj' (Option.some.inj h) rfl
      have hmem : x ∈ mid2 := by
        have : x = mid2[j2] := by simpa using h'.2
        rw [this]
        exact List.getElem_mem hlt2'
      exact absurd hmem hx2
    · subst heq2
      refine ⟨rfl, ?_⟩
      rw [swapAt_snoc_last mid x] at h
      have h2 : swapAt (mid2 ++ [x]) mid2.length mid.length = some (mid2 ++ [x]) := by
        rw [← hlen]; exact swapAt_snoc_last mid2 x
      rw [h2] at h
      exact List.append_cancel_right (Option.some.inj h)

theorem swapAt_snoc_surj (l : Questions) (x : Question) (out : Questions)
    (h : out.Perm (l ++ [x])) :
    ∃ mid j, j ≤ l.length ∧ mid.Perm l ∧ swapAt (mid ++ [x]) l.length j = some out := by
  rcases List.eq_nil_or_concat out with hnil | ⟨front, y, hcat⟩
  · subst hnil
    have := h.length_eq
    simp at this
  · rw [List.concat_eq_append] at hcat
    subst hcat
    have hlen : front.length = l.length := by
      have := h.length_eq
      simpa using this
    by_cases hy : y = x
    · subst hy
      refine ⟨front, l.length, le_refl _, (List.perm_append_right_iff _).mp h, ?_⟩
      rw [← hlen]
      exact swapAt_snoc_last front y
    · have hxmem : x ∈ front ++ [y] := h.symm.subset (by simp)
      have hxfront : x ∈ front := by
        rcases List.mem_append.mp hxmem with hm | hm
        · exact hm
        · simp at hm
          exact absurd hm.symm hy
      obtain ⟨j, hjlt, hjx⟩ := List.mem_iff_getElem.mp hxfront
      have hjlt' : j < (front.set j y).length := by simpa using hjlt
      have hswap : swapAt (front.set j y ++ [x]) l.length j = some (front ++ [y]) := by
        have hl : l.length = (front.set j y).length := by simp [hlen]
        rw [hl, swapAt_snoc_lt (front.set j y) x j hjlt']
        congr 1
        rw [List.set_set, set_eq_self_of_getElem front j x hjlt hjx]
        simp
      refine ⟨front.set j y, j, by omega, ?_, hswap⟩
      have hj1 : l.length < (front.set j y ++ [x]).length := by simp [hlen]
      have hj2 : j < (front.set j y ++ [x]).length := by simp; omega
      obtain ⟨out2, hout2, hperm2⟩ := swapAt_some (front.set j y ++ [x]) l.length j hj1 hj2
      rw [hswap] at hout2
      cases hout2
      exact (List.perm_append_right_iff _).mp (hperm2.symm.trans h)

theorem ShuffledCopy_choices_injective (l : Questions) (hnd : l.Nodup) (rnd rnd2 : Nat → Nat)
    (h : ShuffledCopy l rnd = ShuffledCopy l rnd2) :
    ∀ i, i < l.length → rnd i % (i + 1) = rnd2 i % (i + 1) := by
  induction l using List.reverseRecOn with
  | nil => intro i hi; simp at hi
  | append_singleton l x ih =>
    have hnd' : l.Nodup ∧ x ∉ l := by
      have := List.nodup_append.mp hnd
      exact ⟨this.1, fun hx => this.2.2 hx (List.mem_singleton_self x)⟩
    obtain ⟨mid, hmid, hperm⟩ := ShuffledCopy_some l rnd
    obtain ⟨mid2, hmid2, hperm2⟩ := ShuffledCopy_some l rnd2
    rw [ShuffledCopy_snoc, ShuffledCopy_snoc, hmid, hmid2] at h
    simp only [Option.some_bind] at h
    have hl : l.length = mid.length := hperm.length_eq.symm
    have hl2 : mid2.length = mid.length := by rw [hperm2.length_eq, hl]
    have hstep := swapAt_snoc_inj mid mid2 x (rnd l.length % (l.length + 1))
      (rnd2 l.length % (l.length + 1)) hl2
      (fun hx => hnd'.2 (hperm2.subset hx)) (fun hx => hnd'.2 (hperm.subset hx))
      (by rw [← hl]; exact Nat.lt_succ_iff.mp (Nat.mod_lt _ (Nat.succ_pos _)))
      (by rw [← hl]; exact Nat.lt_succ_iff.mp (Nat.mod_lt _ (Nat.succ_pos _)))
      (by rw [hl2, ← hl]; exact h)
    have hprev := ih hnd'.1 (by rw [hmid, hmid2, hstep.2])
    intro i hi
    have hi' : i < l.length + 1 := by simpa using hi
    rcases Nat.lt_or_eq_of_le (Nat.lt_succ_iff.mp hi') with hlt | heq
    · exact hprev i hlt
    · subst heq
      exact hstep.1

theorem ShuffledCopy_choices_surjective (l out : Questions) (h : out.Perm l) :
    ∃ rnd : Nat → Nat, (∀ i, rnd i ≤ i) ∧ ShuffledCopy l rnd = some out := by
  induction l using List.reverseRecOn generalizing out with
  | nil =>
    have : out = [] := List.perm_nil.mp h
    subst this
    exact ⟨fun _ => 0, fun _ => Nat.zero_le _, rfl⟩
  | append_singleton l x ih =>
    obtain ⟨mid, j, hj, hperm, hswap⟩ := swapAt_snoc_surj l x out h
    obtain ⟨rnd0, hrnd0, hmid⟩ := ih mid hperm
    refine ⟨fun i => if i = l.length then j else rnd0 i, ?_, ?_⟩
    · intro i
      by_cases hi : i = l.length
      · simp only [hi, if_true]; exact hj
      · simp only [hi, if_false]; exact hrnd0 i
    · have hcongr : ShuffledCopy l (fun i => if i = l.length then j else rnd0 i) =
          ShuffledCopy l rnd0 := by
        apply ShuffledCopy_congr
        intro i hi
        have : i ≠ l.length := Nat.ne_of_lt hi
        simp [this]
      rw [ShuffledCopy_snoc, hcongr, hmid]
      simp only [Option.some_bind, if_true]
      rw [Nat.mod_eq_of_lt (Nat.lt_succ_iff.mpr hj)]
      exact hswap

theorem Choices.rnd_mod {n : Nat} (c : Choices n) (i : Nat) (hi : i < n) :
    c.rnd i % (i + 1) = (c ⟨i, hi⟩).val := by
  simp only [Choices.rnd, hi, dif_pos]
  exact Nat.mod_eq_of_lt (c ⟨i, hi⟩).isLt

theorem card_Choices (n : Nat) : Fintype.card (Choices n) = n.factorial := by
  rw [Fintype.card_pi]
  simp only [Fintype.card_fin]
  rw [Fin.prod_univ_eq_prod_range (fun i => i + 1) n, Finset.prod_range_add_one_eq_factorial]

/-- C7: the shuffle is unbiased. For an input of `N` pairwise distinct questions
there are `N!` sequences of choices `(j_0, ..., j_{N-1})` with `0 ≤ j_i ≤ i`; the
loop of `ShuffledCopy` sends each of them to an ordering of the input, and every
ordering of the input is produced by exactly one of them. Uniform independent
choices therefore give every ordering the probability `1 / N!`. -/
theorem ShuffledCopy_unbiased (l : Questions) (hnd : l.Nodup) :
    Fintype.card (Choices l.length) = l.length.factorial ∧
      (∀ c : Choices l.length, ∃ out, ShuffledCopy l c.rnd = some out ∧ out.Perm l) ∧
      (∀ out : Questions, out.Perm l →
        ∃! c : Choices l.length, ShuffledCopy l c.rnd = some out) := by
  refine ⟨card_Choices _, fun c => ShuffledCopy_some l c.rnd, ?_⟩
  intro out hperm
  obtain ⟨rnd, hrnd, hout⟩ := ShuffledCopy_choices_surjective l out hperm
  refine ⟨fun i => ⟨rnd i.val, Nat.lt_succ_iff.mpr (hrnd i.val)⟩, ?_, ?_⟩
  · show ShuffledCopy l (Choices.rnd _) = some out
    rw [← hout]
    apply ShuffledCopy_congr
    intro i hi
    rw [Choices.rnd_mod _ i hi]
    exact (Nat.mod_eq_of_lt (Nat.lt_succ_iff.mpr (hrnd i))).symm
  · intro c hc
    funext i
    apply Fin.ext
    have hinj := ShuffledCopy_choices_injective l hnd c.rnd rnd (by rw [hc, hout]) i.val i.isLt
    rw [Choices.rnd_mod c i.val i.isLt, Nat.mod_eq_of_lt (Nat.lt_succ_iff.mpr (hrnd i.val))]
      at hinj
    exact hinj

/-- Witness for C7: the four pairwise distinct questions of `TestCalculateScore`. -/
theorem ShuffledCopy_unbiased_witness :
    testQuestions.Nodup ∧ Fintype.card (Choices testQuestions.length) = 24 ∧
      (∀ out : Questions, out.Perm testQuestions →
        ∃! c : Choices testQuestions.length, ShuffledCopy testQuestions c.rnd = some out) :=
  ⟨by decide, (ShuffledCopy_unbiased testQuestions (by decide)).1,
    (ShuffledCopy_unbiased testQuestions (by decide)).2.2⟩

/-! ## Theorems on `SubmitAnswers` -/

theorem Ledger.get_put_self (m : Ledger) (key : String) (v v0 : List ℚ)
    (h : m.get key = some v0) : (m.put key v).get key = some v := by
  induction m with
  | nil => simp [Ledger.get] at h
  | cons kv rest ih =>
    obtain ⟨k, w⟩ := kv
    have hcons : Ledger.put ((k, w) :: rest) key v =
        (if k = key then (k, v) else (k, w)) :: Ledger.put rest key v := rfl
    rw [hcons]
    by_cases hk : k = key
    · rw [if_pos hk]
      simp [Ledger.get, hk]
    · have hrest : Ledger.get rest key = some v0 := by simpa [Ledger.get, hk] using h
      rw [if_neg hk]
      simpa [Ledger.get, hk] using ih hrest

theorem percentage_bounds (responses : List QuestionResponse) (hne : responses ≠ []) :
    0 ≤ 100 * (correctCount responses : ℚ) / (responses.length : ℚ) ∧
      100 * (correctCount responses : ℚ) / (responses.length : ℚ) ≤ 100 := by
  refine ⟨by positivity, ?_⟩
  have hpos : (0 : ℚ) < (responses.length : ℚ) := by
    have : 0 < responses.length := List.length_pos.mpr hne
    exact_mod_cast this
  rw [div_le_iff₀ hpos]
  have hle : (correctCount responses : ℚ) ≤ (responses.length : ℚ) := by
    exact_mod_cast correctCount_le_length responses
  linarith

theorem CalculateComparison_normalise (ledger : Ledger) (category : String) (newScore : ℚ) :
    CalculateComparison ledger (normalise category) newScore =
      CalculateComparison ledger category newScore := by
  have h := normalise_idem category
  unfold normalise at h
  simp only [CalculateComparison, normalise, h]

theorem AppendCategoryScore_normalise (ledger : Ledger) (category : String) (newScore : ℚ) :
    AppendCategoryScore ledger (normalise category) newScore =
      AppendCategoryScore ledger category newScore := by
  have h := normalise_idem category
  unfold normalise at h
  simp only [AppendCategoryScore, normalise, h]

theorem AppendCategoryScore_of_get (ledger : Ledger) (category : String) (newScore : ℚ)
    (scores : List ℚ) (hkey : normalise category ≠ "")
    (hget : ledger.get (normalise category) = some scores)
    (h0 : 0 ≤ newScore) (h100 : newScore ≤ 100) :
    AppendCategoryScore ledger category newScore =
      (none, ledger.put (normalise category) (scores ++ [newScore])) := by
  unfold normalise at hkey hget
  have hlen : ¬ (ToLower (Trim category " ")).length = 0 := by
    rw [length_eq_zero_iff_eq_empty]; exact hkey
  have hrange : ¬ (newScore < 0 ∨ newScore > 100) := by
    rintro (h | h)
    · exact absurd h (not_lt.mpr h0)
    · exact absurd h (not_lt.mpr h100)
  simp only [AppendCategoryScore, hlen, if_false, hget, hrange, normalise]

/-- The comparison message `SubmitAnswers` reports on success, as a function of
the history `scores` the category had before the call. -/
theorem SubmitAnswers_success_eq (ledger : Ledger) (sub : QuizResponse) (scores : List ℚ)
    (hne : ledger ≠ []) (hresp : sub.QuestionResponses ≠ [])
    (hq : ∀ r ∈ sub.QuestionResponses, r.Question ≠ none)
    (hkey : normalise sub.Category ≠ "")
    (hget : ledger.get (normalise sub.Category) = some scores) :
    SubmitAnswers ledger (some sub) =
      (prepareResponse true "Submission processed successfully." 200
        (.result (CalculateScore sub.QuestionResponses).1 (CalculateScore sub.QuestionResponses).2.1
          (if scores = [] then firstQuizzerMessage (normalise sub.Category)
            else betterThanMessage (normalise sub.Category)
              (CalculateComparison ledger sub.Category
                (CalculateScore sub.QuestionResponses).2.1).1)),
        ledger.put (normalise sub.Category)
          (scores ++ [(CalculateScore sub.QuestionResponses).2.1])) := by
  have hscore := CalculateScore_of_valid sub.QuestionResponses hresp hq
  have hb := percentage_bounds sub.QuestionResponses hresp
  have hcmp := CalculateComparison_of_get ledger sub.Category _ scores hkey hget hb.1 hb.2
  have happ := AppendCategoryScore_of_get ledger sub.Category _ scores hkey hget hb.1 hb.2
  have hcmp' := CalculateComparison_normalise ledger sub.Category
    (100 * (correctCount sub.QuestionResponses : ℚ) / (sub.QuestionResponses.length : ℚ))
  have happ' := AppendCategoryScore_normalise ledger sub.Category
    (100 * (correctCount sub.QuestionResponses : ℚ) / (sub.QuestionResponses.length : ℚ))
  rw [hcmp] at hcmp'
  rw [happ] at happ'
  unfold normalise at hkey hget hcmp' happ'
  have hlen : ¬ (ToLower (Trim sub.Category " ")).length = 0 := by
    rw [length_eq_zero_iff_eq_empty]; exact hkey
  have hl : ¬ ledger.length = 0 := by simpa using hne
  have hr : ¬ sub.QuestionResponses.length = 0 := by simpa using hresp
  have hput := Ledger.get_put_self ledger (ToLower (Trim sub.Category " "))
    (scores ++ [100 * (correctCount sub.QuestionResponses : ℚ) /
      (sub.QuestionResponses.length : ℚ)]) scores hget
  simp only [SubmitAnswers, hl, hr, if_false, hlen, hget, Option.isNone_some, hscore, hcmp,
    hcmp', happ', normalise, Ledger.getD, hput, Option.getD_some, Bool.false_eq_true]
  by_cases hs : scores = []
  · simp [hs]
  · have : ¬ (scores ++ [100 * (correctCount sub.QuestionResponses : ℚ) /
      (sub.QuestionResponses.length : ℚ)]).length ≤ 1 := by
      have : 0 < scores.length := List.length_pos.mpr hs
      simp only [List.length_append, List.length_singleton]
      omega
    simp only [this, hs, if_false]

theorem SubmitAnswers_success_inv (ledger : Ledger) (body : Option QuizResponse)
    (h : (SubmitAnswers ledger body).1.Success = true) :
    ∃ sub scores, body = some sub ∧ ledger ≠ [] ∧ sub.QuestionResponses ≠ [] ∧
      (∀ r ∈ sub.QuestionResponses, r.Question ≠ none) ∧ normalise sub.Category ≠ "" ∧
      ledger.get (normalise sub.Category) = some scores := by
  by_cases hl : ledger.length = 0
  · simp [SubmitAnswers, hl, prepareResponse] at h
  cases body with
  | none => simp [SubmitAnswers, hl, prepareResponse] at h
  | some sub =>
    by_cases hr : sub.QuestionResponses.length = 0
    · simp [SubmitAnswers, hl, hr, prepareResponse] at h
    by_cases hc : (ToLower (Trim sub.Category " ")).length = 0
    · simp [SubmitAnswers, hl, hr, hc, prepareResponse] at h
    cases hg : ledger.get (ToLower (Trim sub.Category " ")) with
    | none => simp [SubmitAnswers, hl, hr, hc, hg, prepareResponse] at h
    | some scores =>
      have hresp : sub.QuestionResponses ≠ [] := by simpa using hr
      by_cases hq : ∃ r ∈ sub.QuestionResponses, r.Question = none
      · have hs := CalculateScore_of_nil_question sub.QuestionResponses hresp hq
        simp [SubmitAnswers, hl, hr, hc, hg, hs, prepareResponse] at h
      · refine ⟨sub, scores, rfl, by simpa using hl, hresp, ?_, ?_, hg⟩
        · intro r hr2 hn
          exact hq ⟨r, hr2, hn⟩
        · intro he
          apply hc
          rw [length_eq_zero_iff_eq_empty]
          exact he

theorem firstQuizzerMessage_ne_betterThanMessage (category : String) (x : ℚ) :
    firstQuizzerMessage category ≠ betterThanMessage category x := by
  intro h
  have hd := congrArg String.data h
  have h1 : "You are the first quizzer for the ".data =
      'Y' :: 'o' :: 'u' :: ' ' :: "are the first quizzer for the ".data := rfl
  have h2 : "Your score for the ".data = 'Y' :: 'o' :: 'u' :: 'r' :: " score for the ".data := rfl
  simp only [firstQuizzerMessage, betterThanMessage, String.data_append, h1, h2,
    List.cons_append, List.cons.injEq, true_and] at hd
  exact absurd hd.1 (by decide)

theorem CalculateScore_testSubmission :
    CalculateScore testSubmission.QuestionResponses = ("2/2", 100, none) := by
  rw [CalculateScore_of_valid testSubmission.QuestionResponses (by decide) (by decide)]
  have hc : correctCount testSubmission.QuestionResponses = 2 := by decide
  have hl : testSubmission.QuestionResponses.length = 2 := by decide
  have hs : toString 2 ++ "/" ++ toString 2 = "2/2" := by decide
  rw [hc, hl, hs]
  norm_num

theorem formatFloat0_100 : formatFloat0 100 = "100" := by
  have hf : Rat.floor (100 : ℚ) = 100 := by decide
  have hr : roundHalfEven 100 = 100 := by
    simp only [roundHalfEven, hf]
    norm_num
  have hs : toString (100 : Int) = "100" := by decide
  simp only [formatFloat0, hr]
  norm_num [hs]

theorem SubmitAnswers_scienceLedger :
    SubmitAnswers scienceLedger (some testSubmission) =
      (prepareResponse true "Submission processed successfully." 200
        (.result "2/2" 100
          "Your score for the science category was better than 100% of all quizzers."),
        [("science", [20, 30, 100])]) := by
  have hn : normalise testSubmission.Category = "science" := by decide
  rw [SubmitAnswers_success_eq scienceLedger testSubmission [20, 30] (by decide) (by decide)
    (by decide) (by decide) (by rw [hn]; simp [scienceLedger, Ledger.get])]
  rw [CalculateScore_testSubmission, hn, if_neg (List.cons_ne_nil _ _)]
  have hcmp : CalculateComparison scienceLedger testSubmission.Category 100 = (100, none) := by
    rw [CalculateComparison_of_get scienceLedger testSubmission.Category 100 [20, 30]
      (by decide) (by rw [hn]; simp [scienceLedger, Ledger.get]) (by norm_num) (by norm_num),
      if_neg (List.cons_ne_nil _ _)]
    simp only [List.countP_cons, List.countP_nil, List.length_cons, List.length_nil]
    norm_num
  have hmsg : betterThanMessage "science" 100 =
      "Your score for the science category was better than 100% of all quizzers." := by
    simp only [betterThanMessage, formatFloat0_100]
    decide
  simp only [hcmp, hmsg]
  simp [scienceLedger, Ledger.put]

theorem SubmitAnswers_oneScoreLedger :
    SubmitAnswers oneScoreLedger (some testSubmission) =
      (prepareResponse true "Submission processed successfully." 200
        (.result "2/2" 100
          "Your score for the science category was better than 100% of all quizzers."),
        [("science", [50, 100])]) := by
  have hn : normalise testSubmission.Category = "science" := by decide
  rw [SubmitAnswers_success_eq oneScoreLedger testSubmission [50] (by decide) (by decide)
    (by decide) (by decide) (by rw [hn]; simp [oneScoreLedger, Ledger.get])]
  rw [CalculateScore_testSubmission, hn, if_neg (List.cons_ne_nil _ _)]
  have hcmp : CalculateComparison oneScoreLedger testSubmission.Category 100 = (100, none) := by
    rw [CalculateComparison_of_get oneScoreLedger testSubmission.Category 100 [50]
      (by decide) (by rw [hn]; simp [oneScoreLedger, Ledger.get]) (by norm_num) (by norm_num),
      if_neg (List.cons_ne_nil _ _)]
    simp only [List.countP_cons, List.countP_nil, List.length_cons, List.length_nil]
    norm_num
  have hmsg : betterThanMessage "science" 100 =
      "Your score for the science category was better than 100% of all quizzers." := by
    simp only [betterThanMessage, formatFloat0_100]
    decide
  simp only [hcmp, hmsg]
  simp [oneScoreLedger, Ledger.put]

theorem SubmitAnswers_emptyScienceLedger :
    SubmitAnswers emptyScienceLedger (some testSubmission) =
      (prepareResponse true "Submission processed successfully." 200
        (.result "2/2" 100 "You are the first quizzer for the science category."),
        [("science", [100])]) := by
  have hn : normalise testSubmission.Category = "science" := by decide
  rw [SubmitAnswers_success_eq emptyScienceLedger testSubmission [] (by decide) (by decide)
    (by decide) (by decide) (by rw [hn]; simp [emptyScienceLedger, Ledger.get])]
  rw [CalculateScore_testSubmission, hn, if_pos rfl]
  have hmsg : firstQuizzerMessage "science" =
      "You are the first quizzer for the science category." := by decide
  simp only [hmsg]
  simp [emptyScienceLedger, Ledger.put]

/-- C8: for every successful submission the comparison `SubmitAnswers` reports
is the result of `CalculateComparison` on the ledger as it was before the call:
with `scores` the history of the category before the call, the reported
percentage is `100 * #{s ∈ scores | s < score} / #scores`, counted over `scores`
alone, while the ledger returned holds `scores` followed by the new score. -/
theorem SubmitAnswers_compares_before_append (ledger : Ledger) (body : Option QuizResponse)
    (h : (SubmitAnswers ledger body).1.Success = true) :
    ∃ sub scores, body = some sub ∧
      ledger.get (normalise sub.Category) = some scores ∧
      (SubmitAnswers ledger body).2.get (normalise sub.Category) =
        some (scores ++ [(CalculateScore sub.QuestionResponses).2.1]) ∧
      CalculateComparison ledger (normalise sub.Category)
          (CalculateScore sub.QuestionResponses).2.1 =
        (if scores = [] then 0
          else 100 * (scores.countP
              (fun s => decide (s < (CalculateScore sub.QuestionResponses).2.1)) : ℚ) /
            (scores.length : ℚ), none) ∧
      (SubmitAnswers ledger body).1.Data =
        .result (CalculateScore sub.QuestionResponses).1
          (CalculateScore sub.QuestionResponses).2.1
          (if scores = [] then firstQuizzerMessage (normalise sub.Category)
            else betterThanMessage (normalise sub.Category)
              (CalculateComparison ledger (normalise sub.Category)
                (CalculateScore sub.QuestionResponses).2.1).1) := by
  obtain ⟨sub, scores, hbody, hne, hresp, hq, hkey, hget⟩ :=
    SubmitAnswers_success_inv ledger body h
  subst hbody
  refine ⟨sub, scores, rfl, hget, ?_, ?_, ?_⟩
  · rw [SubmitAnswers_success_eq ledger sub scores hne hresp hq hkey hget]
    exact Ledger.get_put_self ledger _ _ scores hget
  · rw [CalculateComparison_normalise]
    have hscore := CalculateScore_of_valid sub.QuestionResponses hresp hq
    have hb := percentage_bounds sub.QuestionResponses hresp
    rw [hscore]
    exact CalculateComparison_of_get ledger sub.Category _ scores hkey hget hb.1 hb.2
  · rw [SubmitAnswers_success_eq ledger sub scores hne hresp hq hkey hget,
      CalculateComparison_normalise]
    rfl

/-- Witness for C8 from `TestSubmitAnswers`: the history `[20,30]` and a 2/2
submission. -/
theorem SubmitAnswers_compares_before_append_witness :
    (SubmitAnswers scienceLedger (some testSubmission)).1.Success = true ∧
      ∃ sub scores, some testSubmission = some sub ∧
        scienceLedger.get (normalise sub.Category) = some scores ∧
        (SubmitAnswers scienceLedger (some testSubmission)).2.get (normalise sub.Category) =
          some (scores ++ [(CalculateScore sub.QuestionResponses).2.1]) ∧
        CalculateComparison scienceLedger (normalise sub.Category)
            (CalculateScore sub.QuestionResponses).2.1 =
          (if scores = [] then 0
            else 100 * (scores.countP
                (fun s => decide (s < (CalculateScore sub.QuestionResponses).2.1)) : ℚ) /
              (scores.length : ℚ), none) ∧
        (SubmitAnswers scienceLedger (some testSubmission)).1.Data =
          .result (CalculateScore sub.QuestionResponses).1
            (CalculateScore sub.QuestionResponses).2.1
            (if scores = [] then firstQuizzerMessage (normalise sub.Category)
              else betterThanMessage (normalise sub.Category)
                (CalculateComparison scienceLedger (normalise sub.Category)
                  (CalculateScore sub.QuestionResponses).2.1).1) :=
  ⟨by rw [SubmitAnswers_scienceLedger]; rfl,
    SubmitAnswers_compares_before_append scienceLedger (some testSubmission)
      (by rw [SubmitAnswers_scienceLedger]; rfl)⟩

/-- C9 (counterexample to the claim as stated): a category whose history holds
exactly one score before the submission gets the numeric comparison, not the
first-quizzer message. -/
theorem SubmitAnswers_one_prior_score_is_numeric :
    (oneScoreLedger.getD (normalise testSubmission.Category)).length = 1 ∧
      (SubmitAnswers oneScoreLedger (some testSubmission)).1 =
        prepareResponse true "Submission processed successfully." 200
          (.result "2/2" 100
            "Your score for the science category was better than 100% of all quizzers.") ∧
      "Your score for the science category was better than 100% of all quizzers." ≠
        firstQuizzerMessage (normalise testSubmission.Category) := by
  refine ⟨by decide, by rw [SubmitAnswers_oneScoreLedger], by decide⟩

/-- C9 (as amended): for every successful submission to a category whose
history, before this submission's score is appended, has no entry,
`SubmitAnswers` reports the first-quizzer message instead of a numeric
comparison. -/
theorem SubmitAnswers_first_quizzer (ledger : Ledger) (body : Option QuizResponse)
    (h : (SubmitAnswers ledger body).1.Success = true)
    (hempty : ∀ sub, body = some sub → ledger.getD (normalise sub.Category) = []) :
    ∃ sub, body = some sub ∧
      (SubmitAnswers ledger body).1.Data =
        .result (CalculateScore sub.QuestionResponses).1
          (CalculateScore sub.QuestionResponses).2.1
          (firstQuizzerMessage (normalise sub.Category)) := by
  obtain ⟨sub, scores, hbody, hne, hresp, hq, hkey, hget⟩ :=
    SubmitAnswers_success_inv ledger body h
  have hs : scores = [] := by
    have := hempty sub hbody
    simpa [Ledger.getD, hget] using this
  subst hbody
  refine ⟨sub, rfl, ?_⟩
  rw [SubmitAnswers_success_eq ledger sub scores hne hresp hq hkey hget, if_pos hs]
  rfl

/-- Witness for C9 from `TestSubmitAnswers`: the empty history of `science`. -/
theorem SubmitAnswers_first_quizzer_witness :
    (SubmitAnswers emptyScienceLedger (some testSubmission)).1.Success = true ∧
      (∀ sub, some testSubmission = some sub →
        emptyScienceLedger.getD (normalise sub.Category) = []) ∧
      ∃ sub, some testSubmission = some sub ∧
        (SubmitAnswers emptyScienceLedger (some testSubmission)).1.Data =
          .result (CalculateScore sub.QuestionResponses).1
            (CalculateScore sub.QuestionResponses).2.1
            (firstQuizzerMessage (normalise sub.Category)) := by
  have h1 : (SubmitAnswers emptyScienceLedger (some testSubmission)).1.Success = true := by
    rw [SubmitAnswers_emptyScienceLedger]; rfl
  have h2 : ∀ sub, some testSubmission = some sub →
      emptyScienceLedger.getD (normalise sub.Category) = [] := by
    intro sub hsub
    cases hsub
    decide
  exact ⟨h1, h2, SubmitAnswers_first_quizzer emptyScienceLedger (some testSubmission) h1 h2⟩

/-- C10: for every successful submission, `SubmitAnswers` reports the message
"You are the first quizzer for the <category> category." if and only if the
category had no recorded score before the submission; whenever at least one
prior score exists it reports the numeric "better than N% of all quizzers"
message, `N` being the comparison computed on the prior scores. -/
theorem SubmitAnswers_message (ledger : Ledger) (body : Option QuizResponse)
    (h : (SubmitAnswers ledger body).1.Success = true) :
    ∃ sub comparison, body = some sub ∧
      (SubmitAnswers ledger body).1.Data =
        .result (CalculateScore sub.QuestionResponses).1
          (CalculateScore sub.QuestionResponses).2.1 comparison ∧
      (comparison = firstQuizzerMessage (normalise sub.Category) ↔
        ledger.getD (normalise sub.Category) = []) ∧
      (ledger.getD (normalise sub.Category) ≠ [] →
        comparison = betterThanMessage (normalise sub.Category)
          (CalculateComparison ledger (normalise sub.Category)
            (CalculateScore sub.QuestionResponses).2.1).1) := by
  obtain ⟨sub, scores, hbody, hne, hresp, hq, hkey, hget⟩ :=
    SubmitAnswers_success_inv ledger body h
  subst hbody
  have hD : ledger.getD (normalise sub.Category) = scores := by simp [Ledger.getD, hget]
  refine ⟨sub, (if scores = [] then firstQuizzerMessage (normalise sub.Category)
      else betterThanMessage (normalise sub.Category)
        (CalculateComparison ledger sub.Category (CalculateScore sub.QuestionResponses).2.1).1),
    rfl, ?_, ?_, ?_⟩
  · rw [SubmitAnswers_success_eq ledger sub scores hne hresp hq hkey hget]
    rfl
  · rw [hD]
    constructor
    · intro hmsg
      by_contra hs
      rw [if_neg hs] at hmsg
      exact firstQuizzerMessage_ne_betterThanMessage _ _ hmsg.symm
    · intro hs
      rw [if_pos hs]
  · rw [hD]
    intro hs
    rw [if_neg hs, CalculateComparison_normalise]

/-- Witness for C10 from `TestSubmitAnswers`: the empty history gives the
first-quizzer message, the history `[20,30]` with a 2/2 submission gives
"better than 100%". -/
theorem SubmitAnswers_message_witness :
    ((SubmitAnswers emptyScienceLedger (some testSubmission)).1.Success = true ∧
      ∃ sub comparison, some testSubmission = some sub ∧
        (SubmitAnswers emptyScienceLedger (some testSubmission)).1.Data =
          .result (CalculateScore sub.QuestionResponses).1
            (CalculateScore sub.QuestionResponses).2.1 comparison ∧
        (comparison = firstQuizzerMessage (normalise sub.Category) ↔
          emptyScienceLedger.getD (normalise sub.Category) = []) ∧
        (emptyScienceLedger.getD (normalise sub.Category) ≠ [] →
          comparison = betterThanMessage (normalise sub.Category)
            (CalculateComparison emptyScienceLedger (normalise sub.Category)
              (CalculateScore sub.QuestionResponses).2.1).1)) ∧
      (SubmitAnswers emptyScienceLedger (some testSubmission)).1.Data =
        .result "2/2" 100 "You are the first quizzer for the science category." ∧
      (SubmitAnswers scienceLedger (some testSubmission)).1.Data =
        .result "2/2" 100
          "Your score for the science category was better than 100% of all quizzers." := by
  have h1 : (SubmitAnswers emptyScienceLedger (some testSubmission)).1.Success = true := by
    rw [SubmitAnswers_emptyScienceLedger]; rfl
  refine ⟨⟨h1, SubmitAnswers_message emptyScienceLedger (some testSubmission) h1⟩, ?_, ?_⟩
  · rw [SubmitAnswers_emptyScienceLedger]; rfl
  · rw [SubmitAnswers_scienceLedger]; rfl

/-! ## Theorems on the failures of the two ledger operations -/

theorem Ledger.get_eq_none_iff (m : Ledger) (key : String) :
    m.get key = none ↔ key ∉ m.keys := by
  induction m with
  | nil => simp [Ledger.get, Ledger.keys]
  | cons kv rest ih =>
    obtain ⟨k, w⟩ := kv
    by_cases hk : k = key
    · simp [Ledger.get, Ledger.keys, hk]
    · have hk2 : ¬ key = k := fun h => hk h.symm
      simpa [Ledger.get, Ledger.keys, hk, hk2] using ih

theorem Ledger.keys_put (m : Ledger) (key : String) (v : List ℚ) :
    (m.put key v).keys = m.keys := by
  induction m with
  | nil => rfl
  | cons kv rest ih =>
    obtain ⟨k, w⟩ := kv
    have hcons : Ledger.put ((k, w) :: rest) key v =
        (if k = key then (k, v) else (k, w)) :: Ledger.put rest key v := rfl
    rw [hcons]
    simp only [Ledger.keys, List.map_cons] at ih ⊢
    rw [ih]
    by_cases hk : k = key <;> simp [hk]

theorem Ledger.get_put_ne (m : Ledger) (key other : String) (v : List ℚ) (h : other ≠ key) :
    (m.put key v).get other = m.get other := by
  induction m with
  | nil => rfl
  | cons kv rest ih =>
    obtain ⟨k, w⟩ := kv
    have hcons : Ledger.put ((k, w) :: rest) key v =
        (if k = key then (k, v) else (k, w)) :: Ledger.put rest key v := rfl
    rw [hcons]
    by_cases hk : k = key
    · have hko : ¬ k = other := fun h2 => h (h2.symm.trans hk)
      rw [if_pos hk]
      simp only [Ledger.get, hko, if_false]
      exact ih
    · rw [if_neg hk]
      by_cases hko : k = other
      · simp [Ledger.get, hko]
      · simp only [Ledger.get, hko, if_false]
        exact ih

theorem Ledger.mem_put (m : Ledger) (key : String) (v : List ℚ) (kv : String × List ℚ)
    (h : kv ∈ m.put key v) : kv ∈ m ∨ kv.2 = v := by
  simp only [Ledger.put, List.mem_map] at h
  obtain ⟨kv0, hmem, heq⟩ := h
  by_cases hk : kv0.1 = key
  · rw [if_pos hk] at heq
    right
    rw [← heq]
  · rw [if_neg hk] at heq
    left
    rw [← heq]
    exact hmem

theorem CalculateComparison_of_empty (ledger : Ledger) (category : String) (newScore : ℚ)
    (hkey : normalise category = "") :
    CalculateComparison ledger category newScore = (0, some "a category must be provided") := by
  unfold normalise at hkey
  have hlen : (ToLower (Trim category " ")).length = 0 := by
    rw [length_eq_zero_iff_eq_empty]; exact hkey
  simp only [CalculateComparison, hlen, if_true]

theorem CalculateComparison_of_unknown (ledger : Ledger) (category : String) (newScore : ℚ)
    (hkey : normalise category ≠ "") (hget : ledger.get (normalise category) = none) :
    CalculateComparison ledger category newScore =
      (0, some ("category '" ++ normalise category ++ "' does not exist")) := by
  unfold normalise at hkey hget
  have hlen : ¬ (ToLower (Trim category " ")).length = 0 := by
    rw [length_eq_zero_iff_eq_empty]; exact hkey
  simp only [CalculateComparison, hlen, if_false, hget, normalise]

theorem CalculateComparison_of_bad_score (ledger : Ledger) (category : String) (newScore : ℚ)
    (scores : List ℚ) (hkey : normalise category ≠ "")
    (hget : ledger.get (normalise category) = some scores)
    (hs : newScore < 0 ∨ 100 < newScore) :
    CalculateComparison ledger category newScore =
      (0, some "score must be a value between 0 and 100") := by
  unfold normalise at hkey hget
  have hlen : ¬ (ToLower (Trim category " ")).length = 0 := by
    rw [length_eq_zero_iff_eq_empty]; exact hkey
  have hs2 : newScore < 0 ∨ newScore > 100 := hs
  simp only [CalculateComparison, hlen, if_false, hget, hs2, if_true]

theorem AppendCategoryScore_of_empty (ledger : Ledger) (category : String) (newScore : ℚ)
    (hkey : normalise category = "") :
    AppendCategoryScore ledger category newScore =
      (some "a category must be provided", ledger) := by
  unfold normalise at hkey
  have hlen : (ToLower (Trim category " ")).length = 0 := by
    rw [length_eq_zero_iff_eq_empty]; exact hkey
  simp only [AppendCategoryScore, hlen, if_true]

theorem AppendCategoryScore_of_unknown (ledger : Ledger) (category : String) (newScore : ℚ)
    (hkey : normalise category ≠ "") (hget : ledger.get (normalise category) = none) :
    AppendCategoryScore ledger category newScore =
      (some ("category '" ++ normalise category ++ "' does not exist"), ledger) := by
  unfold normalise at hkey hget
  have hlen : ¬ (ToLower (Trim category " ")).length = 0 := by
    rw [length_eq_zero_iff_eq_empty]; exact hkey
  simp only [AppendCategoryScore, hlen, if_false, hget, normalise]

theorem AppendCategoryScore_of_bad_score (ledger : Ledger) (category : String) (newScore : ℚ)
    (scores : List ℚ) (hkey : normalise category ≠ "")
    (hget : ledger.get (normalise category) = some scores)
    (hs : newScore < 0 ∨ 100 < newScore) :
    AppendCategoryScore ledger category newScore =
      (some "score must be a value between 0 and 100", ledger) := by
  unfold normalise at hkey hget
  have hlen : ¬ (ToLower (Trim category " ")).length = 0 := by
    rw [length_eq_zero_iff_eq_empty]; exact hkey
  have hs2 : newScore < 0 ∨ newScore > 100 := hs
  simp only [AppendCategoryScore, hlen, if_false, hget, hs2, if_true]

theorem score_in_range_or_not (newScore : ℚ) :
    (0 ≤ newScore ∧ newScore ≤ 100) ∨ (newScore < 0 ∨ 100 < newScore) := by
  by_cases h0 : newScore < 0
  · exact Or.inr (Or.inl h0)
  · by_cases h1 : 100 < newScore
    · exact Or.inr (Or.inr h1)
    · exact Or.inl ⟨not_lt.mp h0, not_lt.mp h1⟩

theorem ledger_cases (ledger : Ledger) (category : String) (newScore : ℚ) :
    normalise category = "" ∨
      (normalise category ≠ "" ∧ ledger.get (normalise category) = none) ∨
      (∃ scores, normalise category ≠ "" ∧ ledger.get (normalise category) = some scores ∧
        (newScore < 0 ∨ 100 < newScore)) ∨
      (∃ scores, normalise category ≠ "" ∧ ledger.get (normalise category) = some scores ∧
        0 ≤ newScore ∧ newScore ≤ 100) := by
  by_cases hkey : normalise category = ""
  · exact Or.inl hkey
  · cases hget : ledger.get (normalise category) with
    | none => exact Or.inr (Or.inl ⟨hkey, rfl⟩)
    | some scores =>
      rcases score_in_range_or_not newScore with hs | hs
      · exact Or.inr (Or.inr (Or.inr ⟨scores, hkey, rfl, hs.1, hs.2⟩))
      · exact Or.inr (Or.inr (Or.inl ⟨scores, hkey, rfl, hs⟩))

theorem Ledger.get_mem (m : Ledger) (key : String) (v : List ℚ) (h : m.get key = some v) :
    (key, v) ∈ m := by
  induction m with
  | nil => simp [Ledger.get] at h
  | cons kv rest ih =>
    obtain ⟨k, w⟩ := kv
    by_cases hk : k = key
    · simp only [Ledger.get, hk, if_true, Option.some.injEq] at h
      simp [hk, h]
    · simp only [Ledger.get, hk, if_false] at h
      exact List.mem_cons_of_mem _ (ih h)

/-- C11: `CalculateComparison` fails if and only if the normalised category is
empty, or is not a key of the ledger, or `newScore` is outside `[0,100]`; the
messages are "a category must be provided", "category '<c>' does not exist"
and "score must be a value between 0 and 100"; the category errors take
precedence over the score error, and every failure returns the value 0. -/
theorem CalculateComparison_fails_iff (ledger : Ledger) (category : String) (newScore : ℚ) :
    ((CalculateComparison ledger category newScore).2 ≠ none ↔
        normalise category = "" ∨ normalise category ∉ ledger.keys ∨
          newScore < 0 ∨ 100 < newScore) ∧
      (normalise category = "" →
        CalculateComparison ledger category newScore =
          (0, some "a category must be provided")) ∧
      (normalise category ≠ "" → normalise category ∉ ledger.keys →
        CalculateComparison ledger category newScore =
          (0, some ("category '" ++ normalise category ++ "' does not exist"))) ∧
      (normalise category ≠ "" → normalise category ∈ ledger.keys →
        (newScore < 0 ∨ 100 < newScore) →
        CalculateComparison ledger category newScore =
          (0, some "score must be a value between 0 and 100")) ∧
      ((CalculateComparison ledger category newScore).2 ≠ none →
        (CalculateComparison ledger category newScore).1 = 0) := by
  rcases ledger_cases ledger category newScore with
    hkey | ⟨hkey, hget⟩ | ⟨scores, hkey, hget, hs⟩ | ⟨scores, hkey, hget, h0, h100⟩
  · have h := CalculateComparison_of_empty ledger category newScore hkey
    refine ⟨by simp [h, hkey], fun _ => h, fun hne => absurd hkey hne,
      fun hne => absurd hkey hne, by simp [h]⟩
  · have h := CalculateComparison_of_unknown ledger category newScore hkey hget
    have hnot : normalise category ∉ ledger.keys := (Ledger.get_eq_none_iff _ _).mp hget
    refine ⟨by simp [h, hnot], fun he => absurd he hkey, fun _ _ => h,
      fun _ hin => absurd hin hnot, by simp [h]⟩
  · have h := CalculateComparison_of_bad_score ledger category newScore scores hkey hget hs
    have hin : ¬ normalise category ∉ ledger.keys := by
      rw [← Ledger.get_eq_none_iff, hget]; simp
    refine ⟨?_, fun he => absurd he hkey, fun _ hnot => absurd hnot hin, fun _ _ _ => h,
      by simp [h]⟩
    rw [h]
    exact ⟨fun _ => Or.inr (Or.inr hs), fun _ => by simp⟩
  · have h := CalculateComparison_of_get ledger category newScore scores hkey hget h0 h100
    have hin : ¬ normalise category ∉ ledger.keys := by
      rw [← Ledger.get_eq_none_iff, hget]; simp
    have hs : ¬ (newScore < 0 ∨ 100 < newScore) := by
      rintro (h1 | h1)
      · exact absurd h1 (not_lt.mpr h0)
      · exact absurd h1 (not_lt.mpr h100)
    refine ⟨?_, fun he => absurd he hkey, fun _ hnot => absurd hnot hin,
      fun _ _ hbad => absurd hbad hs, ?_⟩
    · rw [h]
      constructor
      · intro hcon; exact absurd rfl hcon
      · rintro (he | hnot | hbad)
        · exact absurd he hkey
        · exact absurd hnot hin
        · exact absurd hbad hs
    · rw [h]
      intro hcon
      exact absurd rfl hcon

/-- C12: `AppendCategoryScore` re-validates with the same conditions as
`CalculateComparison`: for every ledger, category string and score the error it
returns is the error `CalculateComparison` returns on the same arguments (both
nil, or both the same message). -/
theorem AppendCategoryScore_error_eq (ledger : Ledger) (category : String) (newScore : ℚ) :
    (AppendCategoryScore ledger category newScore).1 =
      (CalculateComparison ledger category newScore).2 := by
  rcases ledger_cases ledger category newScore with
    hkey | ⟨hkey, hget⟩ | ⟨scores, hkey, hget, hs⟩ | ⟨scores, hkey, hget, h0, h100⟩
  · rw [AppendCategoryScore_of_empty ledger category newScore hkey,
      CalculateComparison_of_empty ledger category newScore hkey]
  · rw [AppendCategoryScore_of_unknown ledger category newScore hkey hget,
      CalculateComparison_of_unknown ledger category newScore hkey hget]
  · rw [AppendCategoryScore_of_bad_score ledger category newScore scores hkey hget hs,
      CalculateComparison_of_bad_score ledger category newScore scores hkey hget hs]
  · rw [AppendCategoryScore_of_get ledger category newScore scores hkey hget h0 h100,
      CalculateComparison_of_get ledger category newScore scores hkey hget h0 h100]

theorem AppendCategoryScore_success_inv (ledger : Ledger) (category : String) (newScore : ℚ)
    (h : (AppendCategoryScore ledger category newScore).1 = none) :
    ∃ scores, normalise category ≠ "" ∧ ledger.get (normalise category) = some scores ∧
      0 ≤ newScore ∧ newScore ≤ 100 := by
  rcases ledger_cases ledger category newScore with
    hkey | ⟨hkey, hget⟩ | ⟨scores, hkey, hget, hs⟩ | ⟨scores, hkey, hget, h0, h100⟩
  · rw [AppendCategoryScore_of_empty ledger category newScore hkey] at h
    simp at h
  · rw [AppendCategoryScore_of_unknown ledger category newScore hkey hget] at h
    simp at h
  · rw [AppendCategoryScore_of_bad_score ledger category newScore scores hkey hget hs] at h
    simp at h
  · exact ⟨scores, hkey, hget, h0, h100⟩

theorem testLedger_music : testLedger.get (normalise "music") = some [] := by
  simp [testLedger, Ledger.get]; decide

theorem testLedger_history : testLedger.get (normalise "history") = none := by
  simp [testLedger, Ledger.get]; decide

theorem AppendCategoryScore_testLedger_science :
    AppendCategoryScore testLedger "science" 75 =
      (none, testLedger.put (normalise "science") ([50, 60, 70, 80, 90] ++ [75])) :=
  AppendCategoryScore_of_get testLedger "science" 75 [50, 60, 70, 80, 90] (by decide)
    testLedger_science (by norm_num) (by norm_num)

theorem AppendCategoryScore_testLedger_music :
    AppendCategoryScore testLedger "music" 35 =
      (none, testLedger.put (normalise "music") ([] ++ [35])) :=
  AppendCategoryScore_of_get testLedger "music" 35 [] (by decide)
    testLedger_music (by norm_num) (by norm_num)

/-- C13: when `AppendCategoryScore` succeeds, the history of the normalised
category becomes the old history followed by `newScore` as its last element,
the history of every other category is unchanged, and the keys of the ledger
are unchanged. -/
theorem AppendCategoryScore_success (ledger : Ledger) (category : String) (newScore : ℚ)
    (h : (AppendCategoryScore ledger category newScore).1 = none) :
    ∃ scores, ledger.get (normalise category) = some scores ∧
      (AppendCategoryScore ledger category newScore).2.get (normalise category) =
        some (scores ++ [newScore]) ∧
      (∀ other, other ≠ normalise category →
        (AppendCategoryScore ledger category newScore).2.get other = ledger.get other) ∧
      (AppendCategoryScore ledger category newScore).2.keys = ledger.keys := by
  obtain ⟨scores, hkey, hget, h0, h100⟩ :=
    AppendCategoryScore_success_inv ledger category newScore h
  rw [AppendCategoryScore_of_get ledger category newScore scores hkey hget h0 h100]
  exact ⟨scores, hget, Ledger.get_put_self ledger _ _ scores hget,
    fun other hne => Ledger.get_put_ne ledger _ other _ hne, Ledger.keys_put ledger _ _⟩

/-- Witness for C13 from `TestAppendCategoryScore`: `[50,60,70,80,90]` plus 75
becomes `[50,60,70,80,90,75]`, and `[]` plus 35 becomes `[35]`. -/
theorem AppendCategoryScore_success_witness :
    ((AppendCategoryScore testLedger "science" 75).1 = none ∧
      ∃ scores, testLedger.get (normalise "science") = some scores ∧
        (AppendCategoryScore testLedger "science" 75).2.get (normalise "science") =
          some (scores ++ [75]) ∧
        (∀ other, other ≠ normalise "science" →
          (AppendCategoryScore testLedger "science" 75).2.get other = testLedger.get other) ∧
        (AppendCategoryScore testLedger "science" 75).2.keys = testLedger.keys) ∧
      (AppendCategoryScore testLedger "science" 75).2.get "science" =
        some [50, 60, 70, 80, 90, 75] ∧
      (AppendCategoryScore testLedger "music" 35).2.get "music" = some [35] := by
  have h1 : (AppendCategoryScore testLedger "science" 75).1 = none := by
    rw [AppendCategoryScore_testLedger_science]
  refine ⟨⟨h1, AppendCategoryScore_success testLedger "science" 75 h1⟩, ?_, ?_⟩
  · rw [AppendCategoryScore_testLedger_science]
    have hn : normalise "science" = "science" := by decide
    rw [hn]
    exact Ledger.get_put_self testLedger "science" _ _ (hn ▸ testLedger_science)
  · rw [AppendCategoryScore_testLedger_music]
    have hn : normalise "music" = "music" := by decide
    rw [hn]
    exact Ledger.get_put_self testLedger "music" _ _ (hn ▸ testLedger_music)

/-- C14: when `AppendCategoryScore` fails (empty or unknown category, or score
outside `[0,100]`), the ledger it leaves is the ledger it was given: no history
changes and no entry is created. -/
theorem AppendCategoryScore_failure_keeps_ledger (ledger : Ledger) (category : String)
    (newScore : ℚ) (h : (AppendCategoryScore ledger category newScore).1 ≠ none) :
    (AppendCategoryScore ledger category newScore).2 = ledger := by
  rcases ledger_cases ledger category newScore with
    hkey | ⟨hkey, hget⟩ | ⟨scores, hkey, hget, hs⟩ | ⟨scores, hkey, hget, h0, h100⟩
  · rw [AppendCategoryScore_of_empty ledger category newScore hkey]
  · rw [AppendCategoryScore_of_unknown ledger category newScore hkey hget]
  · rw [AppendCategoryScore_of_bad_score ledger category newScore scores hkey hget hs]
  · rw [AppendCategoryScore_of_get ledger category newScore scores hkey hget h0 h100] at h
    exact absurd rfl h

/-- Witness for C14 from `TestAppendCategoryScore`: the unknown category
`history` leaves the ledger as it was and gets no entry. -/
theorem AppendCategoryScore_failure_keeps_ledger_witness :
    (AppendCategoryScore testLedger "history" 85).1 ≠ none ∧
      (AppendCategoryScore testLedger "history" 85).2 = testLedger ∧
      (AppendCategoryScore testLedger "history" 85).2.get "history" = none := by
  have h1 : (AppendCategoryScore testLedger "history" 85).1 ≠ none := by
    rw [AppendCategoryScore_of_unknown testLedger "history" 85 (by decide) testLedger_history]
    simp
  have h2 := AppendCategoryScore_failure_keeps_ledger testLedger "history" 85 h1
  refine ⟨h1, h2, ?_⟩
  rw [h2]
  have hn : normalise "history" = "history" := by decide
  exact hn ▸ testLedger_history

/-- C15 (counterexample to the claim as stated): only the space is trimmed. The
category `"\tmath"` becomes `"math"` when tabs are removed too, which is a key of
the ledger, but both ledger operations look up `"\tmath"` and fail. -/
theorem ledger_operations_keep_tab :
    trimWhitespaceLower "\tmath" = "math" ∧
      CalculateComparison testLedger (trimWhitespaceLower "\tmath") 35 = (40, none) ∧
      CalculateComparison testLedger "\tmath" 35 =
        (0, some "category '\tmath' does not exist") ∧
      (AppendCategoryScore testLedger (trimWhitespaceLower "\tmath") 35).1 = none ∧
      (AppendCategoryScore testLedger "\tmath" 35).1 =
        some "category '\tmath' does not exist" := by
  have ht : trimWhitespaceLower "\tmath" = "math" := by decide
  have hn : normalise "math" = "math" := by decide
  have hn2 : normalise "\tmath" = "\tmath" := by decide
  have hget : testLedger.get (normalise "math") = some [20, 30, 40, 50, 60] := by
    rw [hn]; simp [testLedger, Ledger.get]
  have hget2 : testLedger.get (normalise "\tmath") = none := by
    rw [hn2]; simp [testLedger, Ledger.get]
  have hmsg : "category '" ++ normalise "\tmath" ++ "' does not exist" =
      "category '\tmath' does not exist" := by decide
  refine ⟨ht, ?_, ?_, ?_, ?_⟩
  · rw [ht, CalculateComparison_of_get testLedger "math" 35 [20, 30, 40, 50, 60]
      (by decide) hget (by norm_num) (by norm_num), if_neg (List.cons_ne_nil _ _)]
    simp only [List.countP_cons, List.countP_nil, List.length_cons, List.length_nil]
    norm_num
  · rw [CalculateComparison_of_unknown testLedger "\tmath" 35 (by decide) hget2, hmsg]
  · rw [ht, AppendCategoryScore_of_get testLedger "math" 35 [20, 30, 40, 50, 60]
      (by decide) hget (by norm_num) (by norm_num)]
  · rw [AppendCategoryScore_of_unknown testLedger "\tmath" 35 (by decide) hget2, hmsg]

/-- C15 (as amended): category keys are lower-cased and trimmed of surrounding
spaces before lookup in both ledger operations: for every ledger, score and
category string `c`, `CalculateComparison` and `AppendCategoryScore` behave on
`c` exactly as on the string obtained from `c` by removing all leading and
trailing spaces and lower-casing it. -/
theorem ledger_operations_normalise (ledger : Ledger) (category : String) (newScore : ℚ) :
    CalculateComparison ledger category newScore =
        CalculateComparison ledger (normalise category) newScore ∧
      AppendCategoryScore ledger category newScore =
        AppendCategoryScore ledger (normalise category) newScore :=
  ⟨(CalculateComparison_normalise ledger category newScore).symm,
    (AppendCategoryScore_normalise ledger category newScore).symm⟩

/-- The range invariant over scores that are numbers: if every score recorded in
the ledger lies in `[0,100]`, then after any call of `AppendCategoryScore` with
a rational score, successful or failing, every recorded score still lies in
`[0,100]`. -/
theorem AppendCategoryScore_preserves_range (ledger : Ledger) (category : String)
    (newScore : ℚ) (hinv : ∀ kv ∈ ledger, ∀ x ∈ kv.2, 0 ≤ x ∧ x ≤ 100) :
    ∀ kv ∈ (AppendCategoryScore ledger category newScore).2, ∀ x ∈ kv.2, 0 ≤ x ∧ x ≤ 100 := by
  rcases ledger_cases ledger category newScore with
    hkey | ⟨hkey, hget⟩ | ⟨scores, hkey, hget, hs⟩ | ⟨scores, hkey, hget, h0, h100⟩
  · rw [AppendCategoryScore_of_empty ledger category newScore hkey]; exact hinv
  · rw [AppendCategoryScore_of_unknown ledger category newScore hkey hget]; exact hinv
  · rw [AppendCategoryScore_of_bad_score ledger category newScore scores hkey hget hs]
    exact hinv
  · rw [AppendCategoryScore_of_get ledger category newScore scores hkey hget h0 h100]
    intro kv hkv x hx
    rcases Ledger.mem_put ledger _ _ kv hkv with hold | hnew
    · exact hinv kv hold x hx
    · rw [hnew] at hx
      rcases List.mem_append.mp hx with hx1 | hx1
      · exact hinv _ (Ledger.get_mem ledger _ scores hget) x hx1
      · rw [List.mem_singleton.mp hx1]
        exact ⟨h0, h100⟩

theorem testLedger_in_range : ∀ kv ∈ testLedger, ∀ x ∈ kv.2, 0 ≤ x ∧ x ≤ 100 := by
  intro kv hkv x hx
  simp only [testLedger, List.mem_cons, List.mem_singleton, List.not_mem_nil, or_false] at hkv
  rcases hkv with h | h | h <;> subst h <;> simp at hx
  · rcases hx with h | h | h | h | h <;> subst h <;> norm_num
  · rcases hx with h | h | h | h | h <;> subst h <;> norm_num

/-- The range invariant on the ledger of `TestAppendCategoryScore`, appending 75
to `science`. -/
theorem AppendCategoryScore_preserves_range_witness :
    (∀ kv ∈ testLedger, ∀ x ∈ kv.2, 0 ≤ x ∧ x ≤ 100) ∧
      ∀ kv ∈ (AppendCategoryScore testLedger "science" 75).2,
        ∀ x ∈ kv.2, 0 ≤ x ∧ x ≤ 100 :=
  ⟨testLedger_in_range,
    AppendCategoryScore_preserves_range testLedger "science" 75 testLedger_in_range⟩

/-! ## Theorems on `RandomiseQuestions` and `GetQuestions` -/

theorem foldl_append_pooled (questions : Catalog) (init : Questions) :
    questions.foldl (fun allQuestions kv => allQuestions ++ kv.2) init =
      init ++ pooled questions := by
  induction questions generalizing init with
  | nil => simp [pooled]
  | cons kv rest ih =>
    simp only [List.foldl_cons, ih, pooled, List.flatMap_cons, List.append_assoc]

theorem RandomiseQuestions_eq (questions : Catalog) (rnd : Nat → Nat) :
    ∃ shuffled, ShuffledCopy (pooled questions) rnd = some shuffled ∧
      shuffled.Perm (pooled questions) ∧
      RandomiseQuestions questions rnd = some (shuffled.take 5) := by
  obtain ⟨shuffled, hs, hperm⟩ := ShuffledCopy_some (pooled questions) rnd
  refine ⟨shuffled, hs, hperm, ?_⟩
  have hfold := foldl_append_pooled questions []
  simp only [List.nil_append] at hfold
  simp only [RandomiseQuestions, hfold, hs]
  by_cases hlen : shuffled.length > 5
  · simp [hlen]
  · have : shuffled.take 5 = shuffled := List.take_of_length_le (by omega)
    simp [hlen, this]

theorem pooled_eq_nil_iff (catalog : Catalog) :
    pooled catalog = [] ↔ ∀ kv ∈ catalog, kv.2 = [] := by
  induction catalog with
  | nil => simp [pooled]
  | cons kv rest ih =>
    simp only [pooled, List.flatMap_cons, List.append_eq_nil, List.forall_mem_cons] at ih ⊢
    rw [ih]

theorem Catalog.get_eq_none_iff_not_mem (m : Catalog) (key : String) :
    m.get key = none ↔ key ∉ m.keys := by
  induction m with
  | nil => simp [Catalog.get, Catalog.keys]
  | cons kv rest ih =>
    obtain ⟨k, w⟩ := kv
    by_cases hk : k = key
    · simp [Catalog.get, Catalog.keys, hk]
    · have hk2 : ¬ key = k := fun h => hk h.symm
      simpa [Catalog.get, Catalog.keys, hk, hk2] using ih

theorem effectiveCategory_eq (category : String) :
    (if (ToLower (Trim category " ")).length = 0 then "random" else ToLower (Trim category " ")) =
      effectiveCategory category := by
  simp only [effectiveCategory, normalise, length_eq_zero_iff_eq_empty]

theorem append_suffix_ne (p q : List Char) : p ++ ['r', '.'] ≠ q ++ ['y', '.'] := by
  intro h
  have h2 := congrArg List.reverse h
  simp only [List.reverse_append, List.reverse_cons, List.reverse_nil, List.nil_append,
    List.cons_append, List.cons.injEq, true_and] at h2
  exact absurd h2.1 (by decide)

theorem noQuestionsResponse_ne_unknownCategoryResponse (c c2 : String) :
    noQuestionsResponse c ≠ unknownCategoryResponse c2 := by
  intro h
  have hm : (noQuestionsResponse c).Message.data = (unknownCategoryResponse c2).Message.data := by
    rw [h]
  have h1 : " category. Please choose a different category or try again later.".data =
      " category. Please choose a different category or try again late".data ++ ['r', '.'] := by
    decide
  have h2 : " is not a valid category.".data = " is not a valid categor".data ++ ['y', '.'] := by
    decide
  have hA : (noQuestionsResponse c).Message.data =
      ("Currently there are no questions available for the ".data ++ c.data ++
        " category. Please choose a different category or try again late".data) ++
        ['r', '.'] := by
    show ("Currently there are no questions available for the " ++ c ++
      " category. Please choose a different category or try again later.").data = _
    rw [String.data_append, String.data_append, h1, List.append_assoc, List.append_assoc,
      List.append_assoc]
  have hB : (unknownCategoryResponse c2).Message.data =
      (c2.data ++ " is not a valid categor".data) ++ ['y', '.'] := by
    show (c2 ++ " is not a valid category.").data = _
    rw [String.data_append, h2, List.append_assoc]
  rw [hA, hB] at hm
  exact append_suffix_ne _ _ hm

theorem GetQuestions_eq (questions : Catalog) (category : String) (rnd : Nat → Nat)
    (hne : questions ≠ []) :
    GetQuestions questions category rnd =
      if (questions.get (effectiveCategory category)).isNone ∧
          effectiveCategory category ≠ "random" then
        some (unknownCategoryResponse (effectiveCategory category))
      else
        match (if effectiveCategory category = "random" then RandomiseQuestions questions rnd
          else ShuffledCopy (questions.getD (effectiveCategory category)) rnd) with
        | none => none
        | some responseQuestions =>
          if responseQuestions.length = 0 then
            some (noQuestionsResponse (effectiveCategory category))
          else some (questionsResponse (effectiveCategory category) responseQuestions) := by
  have hl : ¬ questions.length = 0 := by simpa using hne
  simp only [GetQuestions, hl, if_false, effectiveCategory_eq, unknownCategoryResponse,
    noQuestionsResponse, questionsResponse]

theorem take_five_eq_nil_iff (shuffled : Questions) : shuffled.take 5 = [] ↔ shuffled = [] := by
  cases shuffled <;> simp

theorem GetQuestions_cases (questions : Catalog) (category : String) (rnd : Nat → Nat)
    (hne : questions ≠ []) :
    (effectiveCategory category ≠ "random" ∧
        questions.get (effectiveCategory category) = none ∧
        GetQuestions questions category rnd =
          some (unknownCategoryResponse (effectiveCategory category))) ∨
      (∃ sel, GetQuestions questions category rnd =
          some (if sel = [] then noQuestionsResponse (effectiveCategory category)
            else questionsResponse (effectiveCategory category) sel) ∧
        ((effectiveCategory category = "random" ∧
            ∃ shuffled : Questions, shuffled.Perm (pooled questions) ∧ sel = shuffled.take 5) ∨
          (effectiveCategory category ≠ "random" ∧
            ∃ qs, questions.get (effectiveCategory category) = some qs ∧ sel.Perm qs))) := by
  rw [GetQuestions_eq questions category rnd hne]
  by_cases hr : effectiveCategory category = "random"
  · right
    obtain ⟨shuffled, _, hperm, hrq⟩ := RandomiseQuestions_eq questions rnd
    refine ⟨shuffled.take 5, ?_, Or.inl ⟨hr, shuffled, hperm, rfl⟩⟩
    simp only [hr, ne_eq, not_true_eq_false, and_false, if_false, if_true, hrq,
      List.length_eq_zero]
    split <;> rfl
  · cases hget : questions.get (effectiveCategory category) with
    | none =>
      left
      refine ⟨hr, rfl, ?_⟩
      simp [hr]
    | some qs =>
      right
      have hD : questions.getD (effectiveCategory category) = qs := by
        simp [Catalog.getD, hget]
      obtain ⟨out, hout, hperm⟩ := ShuffledCopy_some qs rnd
      refine ⟨out, ?_, Or.inr ⟨hr, qs, rfl, hperm⟩⟩
      simp only [Option.isNone_some, Bool.false_eq_true, false_and, if_false, hr, hD, hout,
        List.length_eq_zero]
      split <;> rfl

theorem questionsResponse_ne_unknownCategoryResponse (c c2 : String) (qs : Questions) :
    questionsResponse c qs ≠ unknownCategoryResponse c2 := by
  intro h
  have := congrArg Response.Success h
  simp [questionsResponse, unknownCategoryResponse, prepareResponse] at this

theorem questionsResponse_ne_noQuestionsResponse (c c2 : String) (qs : Questions) :
    questionsResponse c qs ≠ noQuestionsResponse c2 := by
  intro h
  have := congrArg Response.Success h
  simp [questionsResponse, noQuestionsResponse, prepareResponse] at this

theorem effectiveCategory_of_ne (category : String) (h : normalise category ≠ "") :
    effectiveCategory category = normalise category := by
  simp [effectiveCategory, h]

theorem effectiveCategory_of_empty (category : String) (h : normalise category = "") :
    effectiveCategory category = "random" := by
  simp [effectiveCategory, h]

/-- C17: for every catalog, every order in which its categories are visited and
every outcome of the shuffle, `RandomiseQuestions` returns (without failure) the
first `min(5, T)` elements of a permutation of the pooled questions of all
categories, `T` being the total number of questions: the result has exactly
`min(5, T)` questions, each occurring no more often than in the catalog, and an
empty catalog yields an empty result. -/
theorem RandomiseQuestions_selection (catalog order : Catalog) (rnd : Nat → Nat)
    (horder : order.Perm catalog) :
    ∃ out shuffled : Questions, RandomiseQuestions order rnd = some out ∧
      shuffled.Perm (pooled catalog) ∧
      out = shuffled.take (min 5 (pooled catalog).length) ∧
      out.length = min 5 (pooled catalog).length ∧
      (∀ q, out.count q ≤ (pooled catalog).count q) ∧
      (catalog = [] → out = []) := by
  obtain ⟨shuffled, _, hperm, hrq⟩ := RandomiseQuestions_eq order rnd
  have hpool : (pooled order).Perm (pooled catalog) := List.Perm.flatMap_right _ horder
  have hperm2 : shuffled.Perm (pooled catalog) := hperm.trans hpool
  have hlen : shuffled.length = (pooled catalog).length := hperm2.length_eq
  have htake : shuffled.take 5 = shuffled.take (min 5 (pooled catalog).length) := by
    rw [← hlen]
    by_cases h5 : shuffled.length ≤ 5
    · rw [Nat.min_eq_right h5, List.take_of_length_le h5, List.take_of_length_le (le_refl _)]
    · rw [Nat.min_eq_left (by omega)]
  refine ⟨shuffled.take 5, shuffled, hrq, hperm2, htake, ?_, ?_, ?_⟩
  · rw [List.length_take, hlen]
  · intro q
    calc (shuffled.take 5).count q ≤ shuffled.count q :=
          List.Sublist.count_le (List.take_sublist 5 shuffled) q
      _ = (pooled catalog).count q := hperm2.count_eq q
  · intro hempty
    subst hempty
    have : shuffled = [] := List.perm_nil.mp (by simpa [pooled] using hperm2)
    simp [this]

/-- Witness for C17 from `TestRandomiseQuestions`: seven questions in four
categories, visited in reverse order, give five questions. -/
theorem RandomiseQuestions_selection_witness :
    randomiseCatalog.reverse.Perm randomiseCatalog ∧
      (pooled randomiseCatalog).length = 7 ∧
      ∃ out shuffled : Questions,
        RandomiseQuestions randomiseCatalog.reverse (fun _ => 0) = some out ∧
        shuffled.Perm (pooled randomiseCatalog) ∧
        out = shuffled.take (min 5 (pooled randomiseCatalog).length) ∧
        out.length = min 5 (pooled randomiseCatalog).length ∧
        (∀ q, out.count q ≤ (pooled randomiseCatalog).count q) ∧
        (randomiseCatalog = [] → out = []) :=
  ⟨List.reverse_perm _, by decide,
    RandomiseQuestions_selection randomiseCatalog randomiseCatalog.reverse (fun _ => 0)
      (List.reverse_perm _)⟩

/-- C18 (counterexample to the claim as stated): a catalog may bind the empty
key. The request `""` then normalises to a catalog key other than `"random"`
that holds one question, but the handler takes the empty category for
`"random"` and answers with the questions of all categories. -/
theorem GetQuestions_empty_key_is_random :
    emptyKeyCatalog.get (normalise "") = some [waterQuestion] ∧
      normalise "" ≠ "random" ∧
      GetQuestions emptyKeyCatalog "" (fun _ => 0) =
        some (questionsResponse "random" [sumQuestion, waterQuestion]) ∧
      ¬ List.Perm [sumQuestion, waterQuestion] [waterQuestion] := by
  refine ⟨by decide, by decide, by decide, ?_⟩
  intro h
  have := h.length_eq
  simp at this

/-- C18 (as amended): for every catalog and every requested category that
normalises to a non-empty catalog key other than `"random"` and holds at least
one question, `GetQuestions` succeeds and returns a permutation of all of that
category's questions: nothing is dropped and no cap of five applies. -/
theorem GetQuestions_known_category (catalog : Catalog) (category : String) (rnd : Nat → Nat)
    (qs : Questions) (hkey : normalise category ≠ "") (hrandom : normalise category ≠ "random")
    (hget : catalog.get (normalise category) = some qs) (hqs : qs ≠ []) :
    ∃ out : Questions,
      GetQuestions catalog category rnd =
        some (prepareResponse true
          ("Questions successfully retrieved from the " ++ normalise category ++ " category.")
          200 (.questions out)) ∧
      out.Perm qs ∧ out.length = qs.length := by
  have hne : catalog ≠ [] := by
    intro h
    subst h
    simp [Catalog.get] at hget
  have heff := effectiveCategory_of_ne category hkey
  rcases GetQuestions_cases catalog category rnd hne with
    ⟨_, hnone, _⟩ | ⟨sel, hresp, ⟨hr, _⟩ | ⟨_, qs2, hget2, hperm⟩⟩
  · rw [heff, hget] at hnone
    simp at hnone
  · rw [heff] at hr
    exact absurd hr hrandom
  · rw [heff, hget] at hget2
    cases hget2
    have hsel : sel ≠ [] := fun h => hqs (List.perm_nil.mp (h ▸ hperm.symm))
    refine ⟨sel, ?_, hperm, hperm.length_eq⟩
    rw [hresp, if_neg hsel, heff]
    rfl

/-- Witness for C18: a category of seven questions is returned whole. -/
theorem GetQuestions_known_category_witness :
    bigCatalog.get (normalise "science") = some (pooled bigCatalog) ∧
      (pooled bigCatalog).length = 7 ∧
      ∃ out : Questions,
        GetQuestions bigCatalog "science" (fun _ => 0) =
          some (prepareResponse true
            ("Questions successfully retrieved from the " ++ normalise "science" ++ " category.")
            200 (.questions out)) ∧
        out.Perm (pooled bigCatalog) ∧ out.length = (pooled bigCatalog).length :=
  ⟨by decide, by decide,
    GetQuestions_known_category bigCatalog "science" (fun _ => 0) (pooled bigCatalog)
      (by decide) (by decide) (by decide) (by decide)⟩

/-- C19: with a non-empty catalog, `GetQuestions` fails with the
unknown-category error (status 404, message "<category> is not a valid
category.") if and only if the requested category, after trimming surrounding
spaces and lower-casing, is non-empty, is not `"random"` and is not a key of the
catalog; the message then names the normalised category. -/
theorem GetQuestions_unknown_iff (catalog : Catalog) (category : String) (rnd : Nat → Nat)
    (hne : catalog ≠ []) :
    ((∃ c, GetQuestions catalog category rnd = some (unknownCategoryResponse c)) ↔
        normalise category ≠ "" ∧ normalise category ≠ "random" ∧
          normalise category ∉ catalog.keys) ∧
      (normalise category ≠ "" ∧ normalise category ≠ "random" ∧
          normalise category ∉ catalog.keys →
        GetQuestions catalog category rnd =
          some (prepareResponse false (normalise category ++ " is not a valid category.") 404
            .empty)) := by
  have hto : normalise category ≠ "" ∧ normalise category ≠ "random" ∧
      normalise category ∉ catalog.keys →
      GetQuestions catalog category rnd =
        some (unknownCategoryResponse (normalise category)) := by
    rintro ⟨hkey, hrandom, hnot⟩
    have heff := effectiveCategory_of_ne category hkey
    rcases GetQuestions_cases catalog category rnd hne with
      ⟨_, _, hresp⟩ | ⟨sel, _, ⟨hr, _⟩ | ⟨_, qs, hget, _⟩⟩
    · rw [hresp, heff]
    · rw [heff] at hr
      exact absurd hr hrandom
    · rw [heff] at hget
      have := (Catalog.get_eq_none_iff_not_mem catalog (normalise category)).mpr hnot
      rw [hget] at this
      simp at this
  refine ⟨⟨?_, fun h => ⟨_, hto h⟩⟩, hto⟩
  rintro ⟨c, hc⟩
  rcases GetQuestions_cases catalog category rnd hne with
    ⟨hr, hnone, _⟩ | ⟨sel, hresp, _⟩
  · have hkey : normalise category ≠ "" := by
      intro he
      exact hr (effectiveCategory_of_empty category he)
    have heff := effectiveCategory_of_ne category hkey
    rw [heff] at hr hnone
    exact ⟨hkey, hr, (Catalog.get_eq_none_iff_not_mem catalog _).mp hnone⟩
  · rw [hresp] at hc
    have hc2 := Option.some.inj hc
    by_cases hsel : sel = []
    · rw [if_pos hsel] at hc2
      exact absurd hc2 (noQuestionsResponse_ne_unknownCategoryResponse _ _)
    · rw [if_neg hsel] at hc2
      exact absurd hc2 (questionsResponse_ne_unknownCategoryResponse _ _ _)

/-- Witness for C19 from `TestGetQuestions`: `"HISTORY "` is normalised to
`"history"` and rejected by a catalog that only holds `science`. -/
theorem GetQuestions_unknown_iff_witness :
    scienceCatalog ≠ [] ∧ normalise "HISTORY " = "history" ∧
      GetQuestions scienceCatalog "HISTORY " (fun _ => 0) =
        some (prepareResponse false "history is not a valid category." 404 .empty) := by
  have hn : normalise "HISTORY " = "history" := by decide
  refine ⟨by decide, hn, ?_⟩
  have h := (GetQuestions_unknown_iff scienceCatalog "HISTORY " (fun _ => 0) (by decide)).2
    ⟨by decide, by decide, by decide⟩
  rw [h, hn]
  rfl

/-- C20: with a non-empty catalog, `GetQuestions` fails with the
no-questions-available error, which is never the unknown-category error, exactly
when the category is accepted but the selection is empty: the category is a
key of the catalog, taken on its own, that holds zero questions, or the category
is the random one (requested as `"random"` or left empty) and every category of
the catalog holds zero questions. -/
theorem GetQuestions_no_questions_iff (catalog : Catalog) (category : String)
    (rnd : Nat → Nat) (hne : catalog ≠ []) :
    ((∃ c, GetQuestions catalog category rnd = some (noQuestionsResponse c)) ↔
        (effectiveCategory category ≠ "random" ∧
            catalog.get (effectiveCategory category) = some []) ∨
          (effectiveCategory category = "random" ∧ ∀ kv ∈ catalog, kv.2 = [])) ∧
      ((effectiveCategory category ≠ "random" ∧
            catalog.get (effectiveCategory category) = some []) ∨
          (effectiveCategory category = "random" ∧ ∀ kv ∈ catalog, kv.2 = []) →
        GetQuestions catalog category rnd =
          some (prepareResponse false
            ("Currently there are no questions available for the " ++
              effectiveCategory category ++
              " category. Please choose a different category or try again later.") 404
            .empty)) ∧
      (∀ c c2, noQuestionsResponse c ≠ unknownCategoryResponse c2) := by
  have hto : (effectiveCategory category ≠ "random" ∧
        catalog.get (effectiveCategory category) = some []) ∨
      (effectiveCategory category = "random" ∧ ∀ kv ∈ catalog, kv.2 = []) →
      GetQuestions catalog category rnd =
        some (noQuestionsResponse (effectiveCategory category)) := by
    intro hcond
    rcases GetQuestions_cases catalog category rnd hne with
      ⟨hr, hnone, _⟩ | ⟨sel, hresp, ⟨hr, shuffled, hperm, hsel⟩ | ⟨hr, qs, hget, hperm⟩⟩
    · rcases hcond with ⟨_, hget⟩ | ⟨hr2, _⟩
      · rw [hget] at hnone
        simp at hnone
      · exact absurd hr2 hr
    · rcases hcond with ⟨hr2, _⟩ | ⟨_, hall⟩
      · exact absurd hr hr2
      · have hpool : pooled catalog = [] := (pooled_eq_nil_iff catalog).mpr hall
        rw [hpool] at hperm
        have hs : sel = [] := by
          rw [hsel, List.perm_nil.mp hperm]
          rfl
        rw [hresp, if_pos hs]
    · rcases hcond with ⟨_, hget2⟩ | ⟨hr2, _⟩
      · rw [hget] at hget2
        cases hget2
        rw [hresp, if_pos (List.perm_nil.mp hperm)]
      · exact absurd hr2 hr
  refine ⟨⟨?_, fun h => ⟨_, hto h⟩⟩, hto, noQuestionsResponse_ne_unknownCategoryResponse⟩
  rintro ⟨c, hc⟩
  rcases GetQuestions_cases catalog category rnd hne with
    ⟨_, _, hresp⟩ | ⟨sel, hresp, hroute⟩
  · rw [hresp] at hc
    exact absurd (Option.some.inj hc).symm (noQuestionsResponse_ne_unknownCategoryResponse _ _)
  · rw [hresp] at hc
    have hc2 := Option.some.inj hc
    by_cases hsel : sel = []
    · rcases hroute with ⟨hr, shuffled, hperm, hsel2⟩ | ⟨hr, qs, hget, hperm⟩
      · right
        refine ⟨hr, (pooled_eq_nil_iff catalog).mp ?_⟩
        have hsh : shuffled = [] := (take_five_eq_nil_iff shuffled).mp (hsel2 ▸ hsel)
        rw [hsh] at hperm
        exact List.nil_perm.mp hperm
      · left
        refine ⟨hr, ?_⟩
        have hqs : qs = [] := by
          rw [hsel] at hperm
          exact List.nil_perm.mp hperm
        rw [hget, hqs]
    · rw [if_neg hsel] at hc2
      exact absurd hc2 (questionsResponse_ne_noQuestionsResponse _ _ _)

/-- Witness for C20 from `TestGetQuestions`: the catalog whose only category
`history` holds no question. -/
theorem GetQuestions_no_questions_iff_witness :
    historyCatalog ≠ [] ∧
      GetQuestions historyCatalog "history" (fun _ => 0) =
        some (prepareResponse false
          ("Currently there are no questions available for the " ++
            effectiveCategory "history" ++
            " category. Please choose a different category or try again later.") 404
          .empty) ∧
      effectiveCategory "history" = "history" :=
  ⟨by decide,
    (GetQuestions_no_questions_iff historyCatalog "history" (fun _ => 0) (by decide)).2.1
      (Or.inl ⟨by decide, by decide⟩),
    by decide⟩

/-! ## Theorems on `GetCategories` -/

theorem GetCategories_twoCatalog :
    GetCategories twoCatalog =
      some (prepareResponse true "Categories retrieved successfully." 200
        (.categories ["Math", "Science", "Random"])) := by decide

theorem GetCategories_fourCatalog :
    GetCategories fourCatalog =
      some (prepareResponse true "Categories retrieved successfully." 200
        (.categories ["Computing", "History", "Math", "Science", "Random"])) := by decide

theorem runesLe_total (a b : List Char) : runesLe a b = true ∨ runesLe b a = true := by
  induction a generalizing b with
  | nil => left; simp [runesLe]
  | cons x xs ih =>
    cases b with
    | nil => right; simp [runesLe]
    | cons y ys =>
      by_cases h1 : x.toNat < y.toNat
      · left; simp [runesLe, h1]
      · by_cases h2 : y.toNat < x.toNat
        · right; simp [runesLe, h2]
        · simpa [runesLe, h1, h2] using ih ys

theorem runesLe_trans (a b c : List Char) (hab : runesLe a b = true) (hbc : runesLe b c = true) :
    runesLe a c = true := by
  induction a generalizing b c with
  | nil => simp [runesLe]
  | cons x xs ih =>
    cases b with
    | nil => simp [runesLe] at hab
    | cons y ys =>
      cases c with
      | nil => simp [runesLe] at hbc
      | cons z zs =>
        by_cases hxy : x.toNat < y.toNat
        · by_cases hyz : y.toNat < z.toNat
          · have : x.toNat < z.toNat := by omega
            simp [runesLe, this]
          · by_cases hzy : z.toNat < y.toNat
            · simp [runesLe, hyz, hzy] at hbc
            · have : x.toNat < z.toNat := by omega
              simp [runesLe, this]
        · by_cases hyx : y.toNat < x.toNat
          · simp [runesLe, hxy, hyx] at hab
          · simp only [runesLe, hxy, hyx, if_false] at hab
            by_cases hyz : y.toNat < z.toNat
            · have : x.toNat < z.toNat := by omega
              simp [runesLe, this]
            · by_cases hzy : z.toNat < y.toNat
              · simp [runesLe, hyz, hzy] at hbc
              · simp only [runesLe, hyz, hzy, if_false] at hbc
                have h1 : ¬ x.toNat < z.toNat := by omega
                have h2 : ¬ z.toNat < x.toNat := by omega
                simp only [runesLe, h1, h2, if_false]
                exact ih ys zs hab hbc

theorem sortStrings_sorted (l : List String) :
    (sortStrings l).Sorted (fun a b => stringLe a b = true) := by
  haveI : IsTotal String (fun a b => stringLe a b = true) :=
    ⟨fun a b => runesLe_total a.data b.data⟩
  haveI : IsTrans String (fun a b => stringLe a b = true) :=
    ⟨fun a b c hab hbc => runesLe_trans a.data b.data c.data hab hbc⟩
  exact List.sorted_insertionSort _ l

theorem sortStrings_perm (l : List String) : (sortStrings l).Perm l :=
  List.perm_insertionSort _ l

theorem capitalise_of_ne (key : String) (h : key ≠ "") :
    capitalise key = some (capitalised key) := by
  cases hd : key.data with
  | nil =>
    exfalso
    apply h
    apply String.ext
    rw [hd]
  | cons r rest => simp [capitalise, capitalised, hd]

theorem capitalise_empty : capitalise "" = none := rfl

theorem capitaliseAll_of_ne (keys : List String) (h : ∀ k ∈ keys, k ≠ "") :
    capitaliseAll keys = some (keys.map capitalised) := by
  induction keys with
  | nil => rfl
  | cons key rest ih =>
    have h1 := capitalise_of_ne key (h key (List.mem_cons_self _ _))
    have h2 := ih (fun k hk => h k (List.mem_cons_of_mem _ hk))
    simp [capitaliseAll, h1, h2]

theorem capitaliseAll_of_empty (keys : List String) (h : "" ∈ keys) :
    capitaliseAll keys = none := by
  induction keys with
  | nil => simp at h
  | cons key rest ih =>
    by_cases hk : key = ""
    · subst hk
      simp [capitaliseAll, capitalise_empty]
    · have hrest : "" ∈ rest := by
        rcases List.mem_cons.mp h with h1 | h1
        · exact absurd h1.symm hk
        · exact h1
      simp only [capitaliseAll, ih hrest]
      cases capitalise key <;> rfl

/-- The listing of a catalog without the empty key: the capitalised keys in
ascending order, then `"Random"`. -/
theorem GetCategories_of_nonempty_keys (catalog : Catalog) (hne : catalog ≠ [])
    (hkeys : ∀ k ∈ catalog.keys, k ≠ "") :
    GetCategories catalog =
        some (prepareResponse true "Categories retrieved successfully." 200
          (.categories (sortStrings (catalog.keys.map capitalised) ++ ["Random"]))) ∧
      (sortStrings (catalog.keys.map capitalised) ++ ["Random"]).length = catalog.length + 1 ∧
      (sortStrings (catalog.keys.map capitalised)).Sorted (fun a b => stringLe a b = true) ∧
      (sortStrings (catalog.keys.map capitalised)).Perm (catalog.keys.map capitalised) := by
  have hl : ¬ catalog.length = 0 := by simpa using hne
  refine ⟨?_, ?_, sortStrings_sorted _, sortStrings_perm _⟩
  · simp only [GetCategories, hl, if_false, capitaliseAll_of_ne catalog.keys hkeys]
  · rw [List.length_append, (sortStrings_perm _).length_eq]
    simp [Catalog.keys]

theorem GetCategories_of_empty_key (catalog : Catalog) (hkey : "" ∈ catalog.keys) :
    GetCategories catalog = none := by
  have hl : ¬ catalog.length = 0 := by
    intro h
    have : catalog = [] := List.length_eq_zero.mp h
    subst this
    simp [Catalog.keys] at hkey
  simp only [GetCategories, hl, if_false, capitaliseAll_of_empty catalog.keys hkey]

theorem GetCategories_of_nil : GetCategories [] = some serviceUnavailableResponse := rfl

/-- C21 (evaluation at the failing input): on a catalog of two categories, one
of them the empty key, the listing does not return: `runes[0]` is out of
range for the empty key. -/
theorem GetCategories_listing_fails_on_empty_key :
    emptyKeyCatalog.length = 2 ∧ GetCategories emptyKeyCatalog = none := by
  refine ⟨rfl, ?_⟩
  exact GetCategories_of_empty_key emptyKeyCatalog (by decide)

/-- C24 (evaluation at the failing input): upper-casing the first rune of the
empty key indexes past its end, and the listing of a catalog whose only key is
empty is a runtime failure. -/
theorem GetCategories_panics_on_empty_key :
    onlyEmptyKeyCatalog ≠ [] ∧ capitalise "" = none ∧
      GetCategories onlyEmptyKeyCatalog = none := by
  refine ⟨by decide, rfl, ?_⟩
  exact GetCategories_of_empty_key onlyEmptyKeyCatalog (by decide)

/-! ## Theorems on the order of the checks -/

theorem SubmitAnswers_of_nil (body : Option QuizResponse) :
    SubmitAnswers [] body = (serviceUnavailableResponse, []) := by
  simp [SubmitAnswers, serviceUnavailableResponse]

theorem SubmitAnswers_of_no_answers (ledger : Ledger) (sub : QuizResponse) (hne : ledger ≠ [])
    (hresp : sub.QuestionResponses = []) :
    SubmitAnswers ledger (some sub) =
      (prepareResponse false "No answers were submitted." 400 .empty, ledger) := by
  have hl : ¬ ledger.length = 0 := by simpa using hne
  simp [SubmitAnswers, hl, hresp]

theorem SubmitAnswers_of_empty_category (ledger : Ledger) (sub : QuizResponse)
    (hne : ledger ≠ []) (hresp : sub.QuestionResponses ≠ [])
    (hkey : normalise sub.Category = "") :
    SubmitAnswers ledger (some sub) =
      (prepareResponse false "A category must be provided." 400 .empty, ledger) := by
  have hl : ¬ ledger.length = 0 := by simpa using hne
  have hr : ¬ sub.QuestionResponses.length = 0 := by simpa using hresp
  unfold normalise at hkey
  have hc : (ToLower (Trim sub.Category " ")).length = 0 := by
    rw [length_eq_zero_iff_eq_empty]; exact hkey
  simp only [SubmitAnswers, hl, hr, if_false, hc, if_true]

theorem SubmitAnswers_of_unknown_category (ledger : Ledger) (sub : QuizResponse)
    (hne : ledger ≠ []) (hresp : sub.QuestionResponses ≠ [])
    (hkey : normalise sub.Category ≠ "")
    (hget : ledger.get (normalise sub.Category) = none) :
    SubmitAnswers ledger (some sub) =
      (prepareResponse false (normalise sub.Category ++ " is not a valid category.") 404 .empty,
        ledger) := by
  have hl : ¬ ledger.length = 0 := by simpa using hne
  have hr : ¬ sub.QuestionResponses.length = 0 := by simpa using hresp
  unfold normalise at hkey hget
  have hc : ¬ (ToLower (Trim sub.Category " ")).length = 0 := by
    rw [length_eq_zero_iff_eq_empty]; exact hkey
  simp only [SubmitAnswers, hl, hr, if_false, hc, hget, Option.isNone_none, if_true, normalise]

theorem SubmitAnswers_of_nil_question (ledger : Ledger) (sub : QuizResponse) (scores : List ℚ)
    (hne : ledger ≠ []) (hresp : sub.QuestionResponses ≠ [])
    (hkey : normalise sub.Category ≠ "")
    (hget : ledger.get (normalise sub.Category) = some scores)
    (hq : ∃ r ∈ sub.QuestionResponses, r.Question = none) :
    SubmitAnswers ledger (some sub) =
      (prepareResponse false
        ("Failed to process submission: " ++ "one or more answers were invalid") 400 .empty,
        ledger) := by
  have hl : ¬ ledger.length = 0 := by simpa using hne
  have hr : ¬ sub.QuestionResponses.length = 0 := by simpa using hresp
  unfold normalise at hkey hget
  have hc : ¬ (ToLower (Trim sub.Category " ")).length = 0 := by
    rw [length_eq_zero_iff_eq_empty]; exact hkey
  have hs := CalculateScore_of_nil_question sub.QuestionResponses hresp hq
  simp only [SubmitAnswers, hl, hr, if_false, hc, hget, Option.isNone_some, hs,
    Bool.false_eq_true]

theorem GetQuestions_of_nil (category : String) (rnd : Nat → Nat) :
    GetQuestions [] category rnd = some serviceUnavailableResponse := by
  simp [GetQuestions, serviceUnavailableResponse]

/-- C22: an uninitialised state is reported as a service error before any other
check: `GetCategories` and `GetQuestions` answer with "An unexpected error
occurred. Please try again later." (status 500) if and only if the catalog has
no categories, for every requested category and every outcome of the shuffle;
`SubmitAnswers` answers with it whenever the ledger has no categories, for every
request body, and leaves the ledger empty. -/
theorem service_unavailable_iff :
    (∀ catalog : Catalog,
        GetCategories catalog = some serviceUnavailableResponse ↔ catalog = []) ∧
      (∀ (catalog : Catalog) (category : String) (rnd : Nat → Nat),
        GetQuestions catalog category rnd = some serviceUnavailableResponse ↔ catalog = []) ∧
      (∀ body : Option QuizResponse,
        SubmitAnswers [] body = (serviceUnavailableResponse, [])) := by
  refine ⟨?_, ?_, SubmitAnswers_of_nil⟩
  · intro catalog
    constructor
    · intro h
      by_contra hne
      have hl : ¬ catalog.length = 0 := by simpa using hne
      simp only [GetCategories, hl, if_false] at h
      cases hc : capitaliseAll catalog.keys with
      | none => simp [hc] at h
      | some names =>
        simp only [hc, Option.some.injEq] at h
        have := congrArg Response.Success h
        simp [prepareResponse, serviceUnavailableResponse] at this
    · intro h
      subst h
      exact GetCategories_of_nil
  · intro catalog category rnd
    constructor
    · intro h
      by_contra hne
      rcases GetQuestions_cases catalog category rnd hne with
        ⟨_, _, hresp⟩ | ⟨sel, hresp, _⟩
      · rw [hresp] at h
        have := congrArg Response.StatusCode (Option.some.inj h)
        simp [prepareResponse, serviceUnavailableResponse, unknownCategoryResponse] at this
      · rw [hresp] at h
        have := congrArg Response.StatusCode (Option.some.inj h)
        by_cases hsel : sel = []
        · simp [hsel, prepareResponse, serviceUnavailableResponse, noQuestionsResponse] at this
        · simp [hsel, prepareResponse, serviceUnavailableResponse, questionsResponse] at this
    · intro h
      subst h
      exact GetQuestions_of_nil category rnd

/-- C23: with an initialised ledger and a well-formed request, `SubmitAnswers`
reports the error of the first failing check in the order: empty response list
("No answers were submitted."), category empty after normalisation ("A
category must be provided."), category not in the ledger ("<category> is not a
valid category."), then the error of the scorer on a null question; each of
these answers leaves the ledger as it was. -/
theorem SubmitAnswers_error_order (ledger : Ledger) (sub : QuizResponse) (hne : ledger ≠ []) :
    (sub.QuestionResponses = [] →
        SubmitAnswers ledger (some sub) =
          (prepareResponse false "No answers were submitted." 400 .empty, ledger)) ∧
      (sub.QuestionResponses ≠ [] → normalise sub.Category = "" →
        SubmitAnswers ledger (some sub) =
          (prepareResponse false "A category must be provided." 400 .empty, ledger)) ∧
      (sub.QuestionResponses ≠ [] → normalise sub.Category ≠ "" →
        normalise sub.Category ∉ ledger.keys →
        SubmitAnswers ledger (some sub) =
          (prepareResponse false (normalise sub.Category ++ " is not a valid category.") 404
            .empty, ledger)) ∧
      (sub.QuestionResponses ≠ [] → normalise sub.Category ≠ "" →
        normalise sub.Category ∈ ledger.keys →
        (∃ r ∈ sub.QuestionResponses, r.Question = none) →
        SubmitAnswers ledger (some sub) =
          (prepareResponse false
            "Failed to process submission: one or more answers were invalid" 400 .empty,
            ledger)) := by
  refine ⟨SubmitAnswers_of_no_answers ledger sub hne,
    SubmitAnswers_of_empty_category ledger sub hne, ?_, ?_⟩
  · intro hresp hkey hnot
    exact SubmitAnswers_of_unknown_category ledger sub hne hresp hkey
      ((Ledger.get_eq_none_iff ledger _).mpr hnot)
  · intro hresp hkey hin hq
    cases hget : ledger.get (normalise sub.Category) with
    | none => exact absurd hin ((Ledger.get_eq_none_iff ledger _).mp hget)
    | some scores =>
      rw [SubmitAnswers_of_nil_question ledger sub scores hne hresp hkey hget hq]
      have hmsg : "Failed to process submission: " ++ "one or more answers were invalid" =
          "Failed to process submission: one or more answers were invalid" := by decide
      rw [hmsg]

/-- Witness for C23: a submission with no answers and an unknown category fails
with the no-answers error, and a submission with an unknown category and a null
question fails with the unknown-category error. -/
theorem SubmitAnswers_error_order_witness :
    failureLedger ≠ [] ∧
      SubmitAnswers failureLedger (some noAnswersSubmission) =
        (prepareResponse false "No answers were submitted." 400 .empty, failureLedger) ∧
      SubmitAnswers failureLedger (some nullQuestionSubmission) =
        (prepareResponse false "history is not a valid category." 404 .empty,
          failureLedger) := by
  have hne : failureLedger ≠ [] := by decide
  refine ⟨hne, (SubmitAnswers_error_order failureLedger noAnswersSubmission hne).1 rfl, ?_⟩
  have hn : normalise nullQuestionSubmission.Category = "history" := by decide
  have h := (SubmitAnswers_error_order failureLedger nullQuestionSubmission hne).2.2.1
    (by decide) (by decide) (by decide)
  rw [h, hn]
  rfl

/-- C25: the invalid-score error and the category errors of the ledger are
unreachable inside `SubmitAnswers`: for every request that passes the handler's
own checks (non-empty responses, normalised category non-empty and a key of the
ledger) and for which `CalculateScore` succeeds, the percentage lies in
`[0,100]`, `CalculateComparison` and `AppendCategoryScore` both succeed on the
normalised category, and normalising the normalised category changes nothing. -/
theorem SubmitAnswers_ledger_errors_unreachable (ledger : Ledger) (sub : QuizResponse)
    (hresp : sub.QuestionResponses ≠ []) (hkey : normalise sub.Category ≠ "")
    (hin : normalise sub.Category ∈ ledger.keys)
    (hscore : (CalculateScore sub.QuestionResponses).2.2 = none) :
    0 ≤ (CalculateScore sub.QuestionResponses).2.1 ∧
      (CalculateScore sub.QuestionResponses).2.1 ≤ 100 ∧
      (CalculateComparison ledger (normalise sub.Category)
        (CalculateScore sub.QuestionResponses).2.1).2 = none ∧
      (AppendCategoryScore ledger (normalise sub.Category)
        (CalculateScore sub.QuestionResponses).2.1).1 = none ∧
      normalise (normalise sub.Category) = normalise sub.Category := by
  have hq : ∀ r ∈ sub.QuestionResponses, r.Question ≠ none := by
    intro r hr hn
    rw [CalculateScore_of_nil_question sub.QuestionResponses hresp ⟨r, hr, hn⟩] at hscore
    simp at hscore
  have hb := percentage_bounds sub.QuestionResponses hresp
  rw [CalculateScore_of_valid sub.QuestionResponses hresp hq]
  cases hget : ledger.get (normalise sub.Category) with
  | none => exact absurd hin ((Ledger.get_eq_none_iff ledger _).mp hget)
  | some scores =>
    refine ⟨hb.1, hb.2, ?_, ?_, normalise_idem _⟩
    · rw [CalculateComparison_normalise,
        CalculateComparison_of_get ledger sub.Category _ scores hkey hget hb.1 hb.2]
    · rw [AppendCategoryScore_normalise,
        AppendCategoryScore_of_get ledger sub.Category _ scores hkey hget hb.1 hb.2]

/-- Witness for C25 from `TestSubmitAnswers`: the 2/2 submission to `science`. -/
theorem SubmitAnswers_ledger_errors_unreachable_witness :
    testSubmission.QuestionResponses ≠ [] ∧ normalise testSubmission.Category ≠ "" ∧
      normalise testSubmission.Category ∈ Ledger.keys scienceLedger ∧
      (CalculateScore testSubmission.QuestionResponses).2.2 = none ∧
      0 ≤ (CalculateScore testSubmission.QuestionResponses).2.1 ∧
      (CalculateScore testSubmission.QuestionResponses).2.1 ≤ 100 ∧
      (CalculateComparison scienceLedger (normalise testSubmission.Category)
        (CalculateScore testSubmission.QuestionResponses).2.1).2 = none ∧
      (AppendCategoryScore scienceLedger (normalise testSubmission.Category)
        (CalculateScore testSubmission.QuestionResponses).2.1).1 = none ∧
      normalise (normalise testSubmission.Category) = normalise testSubmission.Category := by
  have h4 : (CalculateScore testSubmission.QuestionResponses).2.2 = none := by
    rw [CalculateScore_testSubmission]
  exact ⟨by decide, by decide, by decide, h4,
    SubmitAnswers_ledger_errors_unreachable scienceLedger testSubmission (by decide)
      (by decide) (by decide) h4⟩

/-! ## Theorems on the order of the shuffled copy -/

theorem swapAt_self (cpy : Questions) (i : Nat) (hi : i < cpy.length) :
    swapAt cpy i i = some cpy := by
  have h1 : cpy[i]? = some cpy[i] := List.getElem?_eq_getElem hi
  simp only [swapAt, h1]
  congr 1
  rw [List.set_set, set_eq_self_of_getElem cpy i cpy[i] hi rfl]

theorem shuffleLoop_identity (rnd : Nat → Nat) (idx : List Nat) (cpy : Questions)
    (h : ∀ i ∈ idx, i < cpy.length ∧ rnd i % (i + 1) = i) :
    shuffleLoop rnd idx cpy = some cpy := by
  induction idx with
  | nil => rfl
  | cons i rest ih =>
    obtain ⟨hi, hr⟩ := h i (List.mem_cons_self _ _)
    simp only [shuffleLoop, hr, swapAt_self cpy i hi]
    exact ih (fun k hk => h k (List.mem_cons_of_mem _ hk))

theorem ShuffledCopy_identity (l : Questions) (rnd : Nat → Nat)
    (h : ∀ i, i < l.length → rnd i % (i + 1) = i) : ShuffledCopy l rnd = some l :=
  shuffleLoop_identity rnd _ l (fun i hi => ⟨List.mem_range.mp hi, h i (List.mem_range.mp hi)⟩)

theorem eq_of_map_ID_eq (out l : Questions) (hperm : out.Perm l)
    (hid : (l.map (fun q => q.ID)).Nodup)
    (hmap : out.map (fun q => q.ID) = l.map (fun q => q.ID)) : out = l := by
  have hinj := List.inj_on_of_nodup_map hid
  apply List.ext_getElem hperm.length_eq
  intro n h1 h2
  have hget := congrArg (fun m => m[n]?) hmap
  simp only [List.getElem?_map, List.getElem?_eq_getElem h1, List.getElem?_eq_getElem h2,
    Option.map_some', Option.some.injEq] at hget
  exact hinj (hperm.subset (List.getElem_mem h1)) (List.getElem_mem h2) hget

/-- C27 (evaluation at the failing input): when the draws of `rand.Intn(i + 1)`
are 0, 1, 2, 3, 4, each swap exchanges a position with itself, and the five
questions with the IDs 1 to 5 of `TestShuffledCopyDifferentOrder` come back in
their original order. -/
theorem ShuffledCopy_may_keep_order :
    2 ≤ shuffleTestQuestions.length ∧
      (shuffleTestQuestions.map (fun q => q.ID)).Nodup ∧
      shuffleTestQuestions.map (fun q => q.ID) = [1, 2, 3, 4, 5] ∧
      ShuffledCopy shuffleTestQuestions (fun i => i) = some shuffleTestQuestions := by
  refine ⟨by decide, by decide, by decide, ?_⟩
  exact ShuffledCopy_identity _ _ (fun i _ => Nat.mod_eq_of_lt (Nat.lt_succ_self i))

/-- The order of the shuffled copy: for every sequence of questions with
pairwise distinct IDs, `ShuffledCopy` returns the IDs in the original order
exactly when every draw is `j_i = i`; for every other outcome of the draws the
returned sequence is in a different order, the ID differing from the input's at
some position. -/
theorem ShuffledCopy_order (l : Questions) (rnd : Nat → Nat)
    (hid : (l.map (fun q => q.ID)).Nodup) :
    ∃ out, ShuffledCopy l rnd = some out ∧
      (out.map (fun q => q.ID) = l.map (fun q => q.ID) ↔
        ∀ i, i < l.length → rnd i % (i + 1) = i) ∧
      (out.map (fun q => q.ID) ≠ l.map (fun q => q.ID) ↔
        ∃ i, i < l.length ∧ rnd i % (i + 1) ≠ i) := by
  obtain ⟨out, hout, hperm⟩ := ShuffledCopy_some l rnd
  have hiff : out.map (fun q => q.ID) = l.map (fun q => q.ID) ↔
      ∀ i, i < l.length → rnd i % (i + 1) = i := by
    constructor
    · intro hmap
      have heq : out = l := eq_of_map_ID_eq out l hperm hid hmap
      have hidc : ShuffledCopy l (fun i => i) = some l :=
        ShuffledCopy_identity _ _ (fun i _ => Nat.mod_eq_of_lt (Nat.lt_succ_self i))
      have hinj := ShuffledCopy_choices_injective l (List.Nodup.of_map _ hid) rnd (fun i => i)
        (by rw [hout, hidc, heq])
      intro i hi
      rw [hinj i hi]
      exact Nat.mod_eq_of_lt (Nat.lt_succ_self i)
    · intro hall
      rw [ShuffledCopy_identity l rnd hall] at hout
      cases hout
      rfl
  refine ⟨out, hout, hiff, ?_⟩
  rw [Ne, hiff]
  constructor
  · intro h
    by_contra hcon
    apply h
    intro i hi
    by_contra hne
    exact hcon ⟨i, hi, hne⟩
  · rintro ⟨i, hi, hne⟩ hall
    exact hne (hall i hi)

/-- The order of the shuffled copy on the five questions with the IDs 1 to 5,
every draw 0. -/
theorem ShuffledCopy_order_witness :
    (shuffleTestQuestions.map (fun q => q.ID)).Nodup ∧
      ∃ out, ShuffledCopy shuffleTestQuestions (fun _ => 0) = some out ∧
        (out.map (fun q => q.ID) = shuffleTestQuestions.map (fun q => q.ID) ↔
          ∀ i, i < shuffleTestQuestions.length → (fun _ => 0) i % (i + 1) = i) ∧
        (out.map (fun q => q.ID) ≠ shuffleTestQuestions.map (fun q => q.ID) ↔
          ∃ i, i < shuffleTestQuestions.length ∧ (fun _ => 0) i % (i + 1) ≠ i) :=
  ⟨by decide, ShuffledCopy_order shuffleTestQuestions (fun _ => 0) (by decide)⟩

/-! ## Theorems on the mixing of categories -/

theorem pooled_cons (kv : String × Questions) (rest : Catalog) :
    pooled (kv :: rest) = kv.2 ++ pooled rest := by
  simp [pooled, List.flatMap_cons]

theorem countP_pooled_of_not_key (catalog : Catalog) (c : String)
    (hcat : ∀ kv ∈ catalog, ∀ q ∈ kv.2, q.Category = kv.1) (hc : c ∉ catalog.keys) :
    (pooled catalog).countP (fun q => decide (q.Category = c)) = 0 := by
  rw [List.countP_eq_zero]
  intro q hq
  simp only [pooled, List.mem_flatMap] at hq
  obtain ⟨kv, hkv, hqkv⟩ := hq
  have h1 : q.Category = kv.1 := hcat kv hkv q hqkv
  have h2 : kv.1 ∈ catalog.keys := List.mem_map.mpr ⟨kv, hkv, rfl⟩
  simp only [decide_eq_true_eq]
  intro h3
  exact hc (h3 ▸ h1 ▸ h2)

theorem countP_pooled_of_key (catalog : Catalog) (hkeys : catalog.keys.Nodup)
    (hcat : ∀ kv ∈ catalog, ∀ q ∈ kv.2, q.Category = kv.1)
    (kv : String × Questions) (hkv : kv ∈ catalog) :
    (pooled catalog).countP (fun q => decide (q.Category = kv.1)) = kv.2.length := by
  induction catalog with
  | nil => simp at hkv
  | cons head rest ih =>
    have hnd : head.1 ∉ Catalog.keys rest ∧ (Catalog.keys rest).Nodup := by
      simpa [Catalog.keys] using hkeys
    have hcat2 : ∀ e ∈ rest, ∀ q ∈ e.2, q.Category = e.1 :=
      fun e he => hcat e (List.mem_cons_of_mem _ he)
    rw [pooled_cons, List.countP_append]
    rcases List.mem_cons.mp hkv with heq | hmem
    · subst heq
      have h1 : kv.2.countP (fun q => decide (q.Category = kv.1)) = kv.2.length := by
        rw [List.countP_eq_length]
        intro q hq
        simpa using hcat kv (List.mem_cons_self _ _) q hq
      rw [h1, countP_pooled_of_not_key rest kv.1 hcat2 hnd.1]
      rfl
    · have hne : head.1 ≠ kv.1 := by
        intro h
        exact hnd.1 (h ▸ List.mem_map.mpr ⟨kv, hmem, rfl⟩)
      have h1 : head.2.countP (fun q => decide (q.Category = kv.1)) = 0 := by
        rw [List.countP_eq_zero]
        intro q hq
        have := hcat head (List.mem_cons_self _ _) q hq
        simp only [decide_eq_true_eq]
        intro h3
        exact hne (this ▸ h3)
      rw [h1, ih hnd.2 hcat2 hmem, Nat.zero_add]

/-- C28 (counterexample to the claim as stated): the catalog without categories
meets both conditions vacuously, and the selection is empty, so it holds
questions of no category at all. -/
theorem RandomiseQuestions_empty_catalog_mixes_nothing :
    (∀ kv ∈ ([] : Catalog), ∀ q ∈ kv.2, q.Category = kv.1) ∧
      (∀ kv ∈ ([] : Catalog), kv.2.length < min 5 (pooled []).length) ∧
      RandomiseQuestions [] (fun _ => 0) = some [] ∧
      ¬ ∃ q1 ∈ ([] : Questions), ∃ q2 ∈ ([] : Questions), q1.Category ≠ q2.Category := by
  refine ⟨by simp, by simp, by decide, by simp⟩

/-- C28 (as amended): random selection mixes categories: for every non-empty
catalog (a map, its keys distinct) in which each question's `Category` field
equals the key of its bucket and in which every single category holds fewer
than `min(5, T)` questions, `T` the total number of questions,
`RandomiseQuestions` returns questions from more than one category, for every
outcome of the shuffle. -/
theorem RandomiseQuestions_mixes (catalog : Catalog) (rnd : Nat → Nat) (hne : catalog ≠ [])
    (hkeys : catalog.keys.Nodup)
    (hcat : ∀ kv ∈ catalog, ∀ q ∈ kv.2, q.Category = kv.1)
    (hsmall : ∀ kv ∈ catalog, kv.2.length < min 5 (pooled catalog).length) :
    ∃ out : Questions, RandomiseQuestions catalog rnd = some out ∧
      ∃ q1 ∈ out, ∃ q2 ∈ out, q1.Category ≠ q2.Category := by
  obtain ⟨shuffled, _, hperm, hrq⟩ := RandomiseQuestions_eq catalog rnd
  have hlen : (shuffled.take 5).length = min 5 (pooled catalog).length := by
    rw [List.length_take, hperm.length_eq]
  obtain ⟨kv0, hkv0⟩ := List.exists_mem_of_ne_nil catalog hne
  have hpos : 0 < (shuffled.take 5).length := by
    rw [hlen]
    exact lt_of_le_of_lt (Nat.zero_le _) (hsmall kv0 hkv0)
  obtain ⟨q1, hq1⟩ := List.exists_mem_of_ne_nil _ (List.length_pos.mp hpos)
  refine ⟨shuffled.take 5, hrq, q1, hq1, ?_⟩
  by_contra hcon
  have hall : ∀ q ∈ shuffled.take 5, q.Category = q1.Category := by
    intro q hq
    by_contra hne2
    exact hcon ⟨q, hq, fun h => hne2 h.symm⟩
  have hq1pool : q1 ∈ pooled catalog :=
    hperm.subset ((List.take_sublist 5 shuffled).subset hq1)
  simp only [pooled, List.mem_flatMap] at hq1pool
  obtain ⟨kv, hkv, hq1kv⟩ := hq1pool
  have hc : q1.Category = kv.1 := hcat kv hkv q1 hq1kv
  have hcount : (shuffled.take 5).countP (fun q => decide (q.Category = kv.1)) =
      (shuffled.take 5).length := by
    rw [List.countP_eq_length]
    intro q hq
    simpa [hc] using hall q hq
  have hle : (shuffled.take 5).countP (fun q => decide (q.Category = kv.1)) ≤ kv.2.length := by
    calc (shuffled.take 5).countP (fun q => decide (q.Category = kv.1))
        ≤ shuffled.countP (fun q => decide (q.Category = kv.1)) :=
          List.Sublist.countP_le _ (List.take_sublist 5 shuffled)
      _ = (pooled catalog).countP (fun q => decide (q.Category = kv.1)) := hperm.countP_eq _
      _ = kv.2.length := countP_pooled_of_key catalog hkeys hcat kv hkv
  have := hsmall kv hkv
  omega

theorem randomiseCatalog_conditions :
    randomiseCatalog ≠ [] ∧ (Catalog.keys randomiseCatalog).Nodup ∧
      (∀ kv ∈ randomiseCatalog, ∀ q ∈ kv.2, q.Category = kv.1) ∧
      (∀ kv ∈ randomiseCatalog, kv.2.length < min 5 (pooled randomiseCatalog).length) := by
  refine ⟨by decide, by decide, by decide, by decide⟩

/-- Witness for C28 from `TestRandomiseQuestions`: categories of sizes 2, 2, 2
and 1. -/
theorem RandomiseQuestions_mixes_witness :
    (randomiseCatalog.map (fun kv => kv.2.length) = [2, 2, 2, 1]) ∧
      ∃ out : Questions, RandomiseQuestions randomiseCatalog (fun _ => 0) = some out ∧
        ∃ q1 ∈ out, ∃ q2 ∈ out, q1.Category ≠ q2.Category :=
  ⟨by decide,
    RandomiseQuestions_mixes randomiseCatalog (fun _ => 0) randomiseCatalog_conditions.1
      randomiseCatalog_conditions.2.1 randomiseCatalog_conditions.2.2.1
      randomiseCatalog_conditions.2.2.2⟩

/-! ## Theorems on the effect of `SubmitAnswers` on the ledger -/

theorem SubmitAnswers_of_bind_failure (ledger : Ledger) (hne : ledger ≠ []) :
    SubmitAnswers ledger none =
      (prepareResponse false "Invalid request format." 400 .empty, ledger) := by
  have hl : ¬ ledger.length = 0 := by simpa using hne
  simp [SubmitAnswers, hl]

theorem SubmitAnswers_failure_keeps_ledger (ledger : Ledger) (body : Option QuizResponse)
    (h : (SubmitAnswers ledger body).1.Success = false) :
    (SubmitAnswers ledger body).2 = ledger := by
  by_cases hne : ledger = []
  · subst hne
    rw [SubmitAnswers_of_nil]
  cases body with
  | none => rw [SubmitAnswers_of_bind_failure ledger hne]
  | some sub =>
    by_cases hresp : sub.QuestionResponses = []
    · rw [SubmitAnswers_of_no_answers ledger sub hne hresp]
    by_cases hkey : normalise sub.Category = ""
    · rw [SubmitAnswers_of_empty_category ledger sub hne hresp hkey]
    cases hget : ledger.get (normalise sub.Category) with
    | none => rw [SubmitAnswers_of_unknown_category ledger sub hne hresp hkey hget]
    | some scores =>
      by_cases hq : ∃ r ∈ sub.QuestionResponses, r.Question = none
      · rw [SubmitAnswers_of_nil_question ledger sub scores hne hresp hkey hget hq]
      · have hall : ∀ r ∈ sub.QuestionResponses, r.Question ≠ none :=
          fun r hr hn => hq ⟨r, hr, hn⟩
        rw [SubmitAnswers_success_eq ledger sub scores hne hresp hall hkey hget] at h
        simp [prepareResponse] at h

/-- C29: `SubmitAnswers` changes the ledger only on success and only by one
entry: if it returns a failure the ledger is unchanged, and if it succeeds the
computed score percentage has been appended as the last entry of the normalised
category's history, every other history and the keys of the ledger being
unchanged. -/
theorem SubmitAnswers_ledger_change (ledger : Ledger) (body : Option QuizResponse) :
    ((SubmitAnswers ledger body).1.Success = false →
        (SubmitAnswers ledger body).2 = ledger) ∧
      ((SubmitAnswers ledger body).1.Success = true →
        ∃ sub scores, body = some sub ∧
          ledger.get (normalise sub.Category) = some scores ∧
          (SubmitAnswers ledger body).2.get (normalise sub.Category) =
            some (scores ++ [(CalculateScore sub.QuestionResponses).2.1]) ∧
          (∀ other, other ≠ normalise sub.Category →
            (SubmitAnswers ledger body).2.get other = ledger.get other) ∧
          (SubmitAnswers ledger body).2.keys = ledger.keys) := by
  refine ⟨SubmitAnswers_failure_keeps_ledger ledger body, ?_⟩
  intro h
  obtain ⟨sub, scores, hbody, hne, hresp, hq, hkey, hget⟩ :=
    SubmitAnswers_success_inv ledger body h
  subst hbody
  refine ⟨sub, scores, rfl, hget, ?_, ?_, ?_⟩
  · rw [SubmitAnswers_success_eq ledger sub scores hne hresp hq hkey hget]
    exact Ledger.get_put_self ledger _ _ scores hget
  · intro other hother
    rw [SubmitAnswers_success_eq ledger sub scores hne hresp hq hkey hget]
    exact Ledger.get_put_ne ledger _ other _ hother
  · rw [SubmitAnswers_success_eq ledger sub scores hne hresp hq hkey hget]
    exact Ledger.keys_put ledger _ _

/-! ## Theorems on the monotonicity of the comparison -/

theorem comparison_value_mono (scores : List ℚ) (a b : ℚ) (hab : a ≤ b) :
    (if scores = [] then (0 : ℚ)
        else 100 * (scores.countP (fun s => decide (s < a)) : ℚ) / (scores.length : ℚ)) ≤
      (if scores = [] then (0 : ℚ)
        else 100 * (scores.countP (fun s => decide (s < b)) : ℚ) / (scores.length : ℚ)) := by
  by_cases hs : scores = []
  · simp [hs]
  · rw [if_neg hs, if_neg hs]
    have hcount : scores.countP (fun s => decide (s < a)) ≤
        scores.countP (fun s => decide (s < b)) := by
      apply List.countP_mono_left
      intro s _ hsa
      simp only [decide_eq_true_eq] at hsa ⊢
      exact lt_of_lt_of_le hsa hab
    have hc : (scores.countP (fun s => decide (s < a)) : ℚ) ≤
        (scores.countP (fun s => decide (s < b)) : ℚ) := by exact_mod_cast hcount
    apply div_le_div_of_nonneg_right _ (by positivity)
    linarith

theorem comparison_value_bounds (scores : List ℚ) (a : ℚ) :
    0 ≤ (if scores = [] then (0 : ℚ)
        else 100 * (scores.countP (fun s => decide (s < a)) : ℚ) / (scores.length : ℚ)) ∧
      (if scores = [] then (0 : ℚ)
        else 100 * (scores.countP (fun s => decide (s < a)) : ℚ) / (scores.length : ℚ)) ≤
        100 := by
  by_cases hs : scores = []
  · simp [hs]
  · rw [if_neg hs]
    refine ⟨by positivity, ?_⟩
    have hpos : (0 : ℚ) < (scores.length : ℚ) := by
      have : 0 < scores.length := List.length_pos.mpr hs
      exact_mod_cast this
    rw [div_le_iff₀ hpos]
    have hle : (scores.countP (fun s => decide (s < a)) : ℚ) ≤ (scores.length : ℚ) := by
      exact_mod_cast List.countP_le_length _
    linarith

/-- C30: the comparison is monotone in the score: for every ledger, every
category and all scores `a ≤ b` in `[0,100]`, the value of
`CalculateComparison` at `a` is at most its value at `b`, both values lie in
`[0,100]`, and for a category known to the ledger both calls succeed. -/
theorem CalculateComparison_monotone (ledger : Ledger) (category : String) (a b : ℚ)
    (h0 : 0 ≤ a) (hab : a ≤ b) (h100 : b ≤ 100) :
    0 ≤ (CalculateComparison ledger category a).1 ∧
      (CalculateComparison ledger category a).1 ≤ (CalculateComparison ledger category b).1 ∧
      (CalculateComparison ledger category b).1 ≤ 100 ∧
      (normalise category ≠ "" → normalise category ∈ ledger.keys →
        (CalculateComparison ledger category a).2 = none ∧
          (CalculateComparison ledger category b).2 = none) := by
  by_cases hkey : normalise category = ""
  · rw [CalculateComparison_of_empty ledger category a hkey,
      CalculateComparison_of_empty ledger category b hkey]
    exact ⟨le_refl _, le_refl _, by norm_num, fun hne => absurd hkey hne⟩
  · cases hget : ledger.get (normalise category) with
    | none =>
      rw [CalculateComparison_of_unknown ledger category a hkey hget,
        CalculateComparison_of_unknown ledger category b hkey hget]
      exact ⟨le_refl _, le_refl _, by norm_num,
        fun _ hin => absurd hin ((Ledger.get_eq_none_iff ledger _).mp hget)⟩
    | some scores =>
      rw [CalculateComparison_of_get ledger category a scores hkey hget h0 (le_trans hab h100),
        CalculateComparison_of_get ledger category b scores hkey hget (le_trans h0 hab) h100]
      exact ⟨(comparison_value_bounds scores a).1, comparison_value_mono scores a b hab,
        (comparison_value_bounds scores b).2, fun _ _ => ⟨rfl, rfl⟩⟩

/-- Witness for C30 on the ledger of `TestCalculateComparison`: the scores 35
and 75 in `science`. -/
theorem CalculateComparison_monotone_witness :
    (0 : ℚ) ≤ 35 ∧ (35 : ℚ) ≤ 75 ∧ (75 : ℚ) ≤ 100 ∧
      0 ≤ (CalculateComparison testLedger "science" 35).1 ∧
      (CalculateComparison testLedger "science" 35).1 ≤
        (CalculateComparison testLedger "science" 75).1 ∧
      (CalculateComparison testLedger "science" 75).1 ≤ 100 ∧
      (normalise "science" ≠ "" → normalise "science" ∈ Ledger.keys testLedger →
        (CalculateComparison testLedger "science" 35).2 = none ∧
          (CalculateComparison testLedger "science" 75).2 = none) :=
  ⟨by norm_num, by norm_num, by norm_num,
    CalculateComparison_monotone testLedger "science" 35 75 (by norm_num) (by norm_num)
      (by norm_num)⟩

/-! ## Theorems on the range guard over `float64` -/

theorem FloatLedger.get_toFloat (m : Ledger) (key : String) :
    FloatLedger.get m.toFloat key = (m.get key).map (fun v => v.map GoFloat.num) := by
  induction m with
  | nil => rfl
  | cons kv rest ih =>
    obtain ⟨k, w⟩ := kv
    have hcons : Ledger.toFloat ((k, w) :: rest) = (k, w.map GoFloat.num) :: Ledger.toFloat rest :=
      rfl
    rw [hcons]
    by_cases hk : k = key
    · simp [FloatLedger.get, Ledger.get, hk]
    · simp only [FloatLedger.get, Ledger.get, hk, if_false]
      exact ih

theorem FloatLedger.put_toFloat (m : Ledger) (key : String) (v : List ℚ) :
    FloatLedger.put m.toFloat key (v.map GoFloat.num) = (m.put key v).toFloat := by
  induction m with
  | nil => rfl
  | cons kv rest ih =>
    obtain ⟨k, w⟩ := kv
    have h1 : FloatLedger.put (Ledger.toFloat ((k, w) :: rest)) key (v.map GoFloat.num) =
        (if k = key then (k, v.map GoFloat.num) else (k, w.map GoFloat.num)) ::
          FloatLedger.put (Ledger.toFloat rest) key (v.map GoFloat.num) := rfl
    have h2 : Ledger.toFloat (Ledger.put ((k, w) :: rest) key v) =
        (if k = key then (k, v.map GoFloat.num) else (k, w.map GoFloat.num)) ::
          Ledger.toFloat (Ledger.put rest key v) := by
      have hcons : Ledger.put ((k, w) :: rest) key v =
          (if k = key then (k, v) else (k, w)) :: Ledger.put rest key v := rfl
      rw [hcons]
      by_cases hk : k = key
      · rw [if_pos hk, if_pos hk]; rfl
      · rw [if_neg hk, if_neg hk]; rfl
    rw [h1, h2, ih]

/-- On scores that are numbers the `float64` reading of `AppendCategoryScore`
agrees with the reading over rationals. -/
theorem AppendCategoryScoreFloat_num (ledger : Ledger) (category : String) (newScore : ℚ) :
    AppendCategoryScoreFloat ledger.toFloat category (.num newScore) =
      ((AppendCategoryScore ledger category newScore).1,
        (AppendCategoryScore ledger category newScore).2.toFloat) := by
  rcases ledger_cases ledger category newScore with
    hkey | ⟨hkey, hget⟩ | ⟨scores, hkey, hget, hs⟩ | ⟨scores, hkey, hget, h0, h100⟩
  · rw [AppendCategoryScore_of_empty ledger category newScore hkey]
    unfold normalise at hkey
    have hlen : (ToLower (Trim category " ")).length = 0 := by
      rw [length_eq_zero_iff_eq_empty]; exact hkey
    simp only [AppendCategoryScoreFloat, hlen, if_true]
  · rw [AppendCategoryScore_of_unknown ledger category newScore hkey hget]
    unfold normalise at hkey hget
    have hlen : ¬ (ToLower (Trim category " ")).length = 0 := by
      rw [length_eq_zero_iff_eq_empty]; exact hkey
    simp only [AppendCategoryScoreFloat, hlen, if_false, FloatLedger.get_toFloat, hget,
      Option.map_none', normalise]
  · rw [AppendCategoryScore_of_bad_score ledger category newScore scores hkey hget hs]
    unfold normalise at hkey hget
    have hlen : ¬ (ToLower (Trim category " ")).length = 0 := by
      rw [length_eq_zero_iff_eq_empty]; exact hkey
    have hguard : (GoFloat.lt (.num newScore) (.num 0) || GoFloat.lt (.num 100) (.num newScore)) =
        true := by
      simp only [GoFloat.lt, Bool.or_eq_true, decide_eq_true_eq]
      exact hs
    simp only [AppendCategoryScoreFloat, hlen, if_false, FloatLedger.get_toFloat, hget,
      Option.map_some', hguard, if_true]
  · rw [AppendCategoryScore_of_get ledger category newScore scores hkey hget h0 h100]
    unfold normalise at hkey hget
    have hlen : ¬ (ToLower (Trim category " ")).length = 0 := by
      rw [length_eq_zero_iff_eq_empty]; exact hkey
    have hguard : ¬ (GoFloat.lt (.num newScore) (.num 0) ||
        GoFloat.lt (.num 100) (.num newScore)) = true := by
      simp only [GoFloat.lt, Bool.or_eq_true, decide_eq_true_eq, not_or, not_lt]
      exact ⟨h0, h100⟩
    simp only [AppendCategoryScoreFloat, hlen, if_false, FloatLedger.get_toFloat, hget,
      Option.map_some', hguard, normalise]
    rw [← FloatLedger.put_toFloat]
    simp

/-- C16 (evaluation at the failing input): every score of the ledger lies in
`[0,100]`; NaN is below neither bound for the guard, so `AppendCategoryScore`
returns no error and stores it, and the ledger then holds a score outside
`[0,100]`. -/
theorem AppendCategoryScoreFloat_stores_nan :
    (∀ kv ∈ numberLedger, ∀ x ∈ kv.2, GoFloat.inRange x) ∧
      (GoFloat.lt .nan (.num 0) || GoFloat.lt (.num 100) .nan) = false ∧
      AppendCategoryScoreFloat numberLedger "science" .nan =
        (none, [("science", [.num 50, .num 60, .nan])]) ∧
      ¬ GoFloat.inRange .nan := by
  refine ⟨?_, rfl, ?_, fun h => h⟩
  · intro kv hkv x hx
    simp only [numberLedger, List.mem_singleton] at hkv
    subst hkv
    simp only [List.mem_cons, List.mem_singleton, List.not_mem_nil, or_false] at hx
    rcases hx with h | h <;> subst h <;> simp only [GoFloat.inRange] <;> norm_num
  · have hn : ToLower (Trim "science" " ") = "science" := by decide
    have hlen : ¬ ("science" : String).length = 0 := by decide
    simp only [AppendCategoryScoreFloat, hn, hlen, if_false, numberLedger, FloatLedger.get,
      if_true, GoFloat.lt, Bool.or_self, Bool.false_eq_true, FloatLedger.put, List.map_cons,
      List.map_nil, List.cons_append, List.nil_append]

theorem FloatLedger.get_mem_entry (m : FloatLedger) (key : String) (v : List GoFloat)
    (h : m.get key = some v) : (key, v) ∈ m := by
  induction m with
  | nil => simp [FloatLedger.get] at h
  | cons kv rest ih =>
    obtain ⟨k, w⟩ := kv
    by_cases hk : k = key
    · simp only [FloatLedger.get, hk, if_true, Option.some.injEq] at h
      simp [hk, h]
    · simp only [FloatLedger.get, hk, if_false] at h
      exact List.mem_cons_of_mem _ (ih h)

theorem FloatLedger.mem_put_entry (m : FloatLedger) (key : String) (v : List GoFloat)
    (kv : String × List GoFloat) (h : kv ∈ m.put key v) : kv ∈ m ∨ kv.2 = v := by
  simp only [FloatLedger.put, List.mem_map] at h
  obtain ⟨kv0, hmem, heq⟩ := h
  by_cases hk : kv0.1 = key
  · rw [if_pos hk] at heq
    right
    rw [← heq]
  · rw [if_neg hk] at heq
    left
    rw [← heq]
    exact hmem

theorem GoFloat.inRange_of_guard (x : GoFloat) (hnan : x ≠ .nan)
    (hguard : (GoFloat.lt x (.num 0) || GoFloat.lt (.num 100) x) = false) : x.inRange := by
  cases x with
  | num q =>
    simp only [GoFloat.lt, Bool.or_eq_false_iff, decide_eq_false_iff_not, not_lt] at hguard
    exact hguard
  | posInf => simp [GoFloat.lt] at hguard
  | negInf => simp [GoFloat.lt] at hguard
  | nan => exact absurd rfl hnan

/-- The range guard does its work for every `float64` other than NaN: if every
recorded score lies in `[0,100]`, it still does after a call of
`AppendCategoryScore` with a score that is not NaN. -/
theorem AppendCategoryScoreFloat_preserves_range (ledger : FloatLedger) (category : String)
    (newScore : GoFloat) (hnan : newScore ≠ .nan)
    (hinv : ∀ kv ∈ ledger, ∀ x ∈ kv.2, GoFloat.inRange x) :
    ∀ kv ∈ (AppendCategoryScoreFloat ledger category newScore).2,
      ∀ x ∈ kv.2, GoFloat.inRange x := by
  unfold AppendCategoryScoreFloat
  by_cases hlen : (ToLower (Trim category " ")).length = 0
  · simp only [hlen, if_true]
    exact hinv
  · simp only [hlen, if_false]
    cases hget : FloatLedger.get ledger (ToLower (Trim category " ")) with
    | none => exact hinv
    | some scores =>
      by_cases hguard : (GoFloat.lt newScore (.num 0) || GoFloat.lt (.num 100) newScore) = true
      · simp only [hguard, if_true]
        exact hinv
      · simp only [hguard, if_false]
        intro kv hkv x hx
        rcases FloatLedger.mem_put_entry ledger _ _ kv hkv with hold | hnew
        · exact hinv kv hold x hx
        · rw [hnew] at hx
          rcases List.mem_append.mp hx with hx1 | hx1
          · exact hinv _ (FloatLedger.get_mem_entry ledger _ scores hget) x hx1
          · rw [List.mem_singleton.mp hx1]
            exact GoFloat.inRange_of_guard newScore hnan (by simpa using hguard)

end QuizWizard
